import Mathlib

/-!
# The k-means engine of `kmeansmodule.c`

A shallow embedding of the clustering engine: `euclidean_distance`,
`assign_clusters`, `calculate_centroids`, `centroids_converged` and the
refinement loop of `fit`, together with the helpers they call.

Conventions of the embedding.

* A `struct cord *` (a NULL-terminated chain of `double`s) is a `List F`; a
  `struct vector *` (a NULL-terminated chain of coordinate chains) is a
  `List (List F)`; the array `struct vector **clusters` is a
  `List (List (List F))` whose length is the number of allocated slots.
* `double` is an arbitrary linearly ordered field `F` and `sqrt` is passed in
  as a function `F → F`.  Every definition is computable and can be run on
  `ℚ`; the theorems that depend on what a square root is are stated on `ℝ`
  with `Real.sqrt`.  Rounding, infinities and NaN are outside the model.
* Undefined behaviour (dereferencing NULL, indexing past the end of the
  cluster array, walking a chain whose `next` field was never written) is the
  result `none`.
* A `double` that is read before it was ever written (the `value` field of a
  node fresh from `malloc`) is not a failure: it has whatever value the heap
  held.  That value is an explicit parameter called `stale`.
* Allocation is taken to succeed, except for the cluster array of `fit` when
  `k` is negative.  `fit_run` and `fit` are the engine, on chains; `fit_call`
  is the whole Python method, on lists, with the conversions of
  `create_vectors_from_pyobject` and `vector_to_pyobject`.
-/

namespace KMeans

variable {F : Type} [LinearOrderedField F]

/-- The function `get_cord_length`: the number of nodes of a coordinate chain. -/
def get_cord_length (head_cord : List F) : Int :=
  (head_cord.length : Int)

/-- The function `get_vector_length`: the number of nodes of a vector chain. -/
def get_vector_length (head_vec : List (List F)) : Int :=
  (head_vec.length : Int)

/-- The function `copy_cords`.  On a non-empty chain it returns a fresh copy.
On NULL the loop body never runs, so the `next` field of the node it allocated
is never written and the result cannot be walked: that is `none`. -/
def copy_cords : List F → Option (List F)
  | [] => none
  | c :: cs => some (c :: cs)

/-- The function `init_empty_cord`.  The loop runs for `i < length - 1`; each
round writes `0` into the current node and allocates the next one.  The node
allocated last is returned with its `value` never written: it holds `stale`. -/
def init_empty_cord (stale : F) (length : Int) : List F :=
  List.replicate (length - 1).toNat 0 ++ [stale]

/-- The function `add_one_cord_values_to_another_cord`: walks both chains while
both are non-NULL and adds into `add_to`; returns the updated `add_to`. -/
def add_one_cord_values_to_another_cord : List F → List F → List F
  | f :: fs, t :: ts => (t + f) :: add_one_cord_values_to_another_cord fs ts
  | _, ts => ts

/-- The function `divide_cord_values_by_number`: divides every value of the
chain by the integer `number`. -/
def divide_cord_values_by_number (head_cord : List F) (number : Int) : List F :=
  head_cord.map (fun v => v / (number : F))

/-- The `while` loop of `euclidean_distance`: the running `sum`. -/
def euclidean_distance_sum : List F → List F → F → F
  | a :: cords1, b :: cords2, sum => euclidean_distance_sum cords1 cords2 (sum + (a - b) ^ 2)
  | _, _, sum => sum

/-- The function `euclidean_distance`. -/
def euclidean_distance (sqrt : F → F) (cords1 cords2 : List F) : F :=
  sqrt (euclidean_distance_sum cords1 cords2 0)

/-- The first loop of `assign_clusters` ("delete old clusters"): slots
`0 .. k-1` of the array are set to NULL, one after the other. -/
def assign_clusters_reset (clusters : List (List (List F))) (k : Nat) :
    Option (List (List (List F))) :=
  (List.range k).foldlM
    (fun cl i => if i < cl.length then some (cl.set i []) else none) clusters

/-- The `for` loop of `assign_clusters` for one point: `fuel` rounds are left,
`i` is the loop counter, `curr_centroid` the rest of the centroid chain. -/
def assign_clusters_scan (sqrt : F → F) (cords : List F) :
    Nat → Nat → List (List F) → F → Nat → Option Nat
  | 0, _, _, _, min_index => some min_index
  | _ + 1, _, [], _, _ => none
  | fuel + 1, i, c :: curr_centroid, min_dist, min_index =>
    let dist := euclidean_distance sqrt cords c
    if dist < min_dist ∨ min_dist = -1 then
      assign_clusters_scan sqrt cords fuel (i + 1) curr_centroid dist i
    else
      assign_clusters_scan sqrt cords fuel (i + 1) curr_centroid min_dist min_index

/-- The index that `assign_clusters` picks for one point: the scan started
with `min_dist = -1`, `min_index = 0` at the head of the centroid chain. -/
def closest_index (sqrt : F → F) (centroids : List (List F)) (k : Nat)
    (cords : List F) : Option Nat :=
  assign_clusters_scan sqrt cords k 0 centroids (-1) 0

/-- The `while` loop of `assign_clusters` over the dataset: the copy of each
point becomes the new head of the chain in slot `min_index`. -/
def assign_clusters_loop (sqrt : F → F) (centroids : List (List F)) (k : Nat) :
    List (List F) → List (List (List F)) → Option (List (List (List F)))
  | [], clusters => some clusters
  | v :: all_vectors_curr, clusters =>
    match closest_index sqrt centroids k v with
    | none => none
    | some min_index =>
      match copy_cords v with
      | none => none
      | some cords =>
        match clusters[min_index]? with
        | none => none
        | some old =>
          assign_clusters_loop sqrt centroids k all_vectors_curr
            (clusters.set min_index (cords :: old))

/-- The function `assign_clusters`; the result is the cluster array after the
call. -/
def assign_clusters (sqrt : F → F) (all_vectors_head centroids_head : List (List F))
    (clusters : List (List (List F))) (k : Nat) : Option (List (List (List F))) :=
  match assign_clusters_reset clusters k with
  | none => none
  | some cleared => assign_clusters_loop sqrt centroids_head k all_vectors_head cleared

/-- The `while` loop of `calculate_centroids` over the members of one cluster:
`count` and the accumulator chain. -/
def calculate_centroids_sum : List (List F) → Int → List F → Int × List F
  | [], count, acc => (count, acc)
  | v :: curr_cluster, count, acc =>
    calculate_centroids_sum curr_cluster (count + 1)
      (add_one_cord_values_to_another_cord v acc)

/-- The body of the `for` loop of `calculate_centroids` for one cluster.
`clusters[i]->cords` is read first, so an empty cluster (NULL) is `none`.  The
accumulator comes from `init_empty_cord`, the members are summed into it, and
the sums are divided by `count`. -/
def calculate_centroids_one (stale : F) : List (List F) → Option (List F)
  | [] => none
  | first :: rest =>
    let new_cord := init_empty_cord stale (get_cord_length first)
    let r := calculate_centroids_sum (first :: rest) 0 new_cord
    some (divide_cord_values_by_number r.2 r.1)

/-- The `for` loop of `calculate_centroids`.  `stale i` is the value found in
the node that `init_empty_cord` leaves unwritten when it is called for
cluster `i`.  Each new vector is linked at the tail of `new_centroids`. -/
def calculate_centroids_loop (stale : Nat → F) (clusters : List (List (List F))) :
    Nat → Nat → List (List F) → Option (List (List F))
  | 0, _, new_centroids => some new_centroids
  | fuel + 1, i, new_centroids =>
    match clusters[i]? with
    | none => none
    | some cluster =>
      match calculate_centroids_one (stale i) cluster with
      | none => none
      | some c =>
        calculate_centroids_loop stale clusters fuel (i + 1) (new_centroids ++ [c])

/-- The function `calculate_centroids`. -/
def calculate_centroids (stale : Nat → F) (clusters : List (List (List F))) (k : Nat) :
    Option (List (List F)) :=
  calculate_centroids_loop stale clusters k 0 []

/-- The function `centroids_converged` (`true` for the C result `1`). -/
def centroids_converged (sqrt : F → F) : List (List F) → List (List F) → F → Bool
  | o :: old_centroids, n :: new_centroids, epsilon =>
    if euclidean_distance sqrt o n > epsilon then false
    else centroids_converged sqrt old_centroids new_centroids epsilon
  | _, _, _ => true

/-- What the loop of `fit` leaves behind: the centroid chain, the cluster
array, and the number of assignment/aggregation passes that were run. -/
structure FitState (F : Type) where
  centroids : List (List F)
  clusters : List (List (List F))
  passes : Nat

/-- The refinement loop of `fit` (`for (i = 0; i < iter; i++)`): `fuel` is
`iter - i`.  `stale i j` is the unwritten value met in pass `i` for cluster
`j`. -/
def fit_loop (sqrt : F → F) (stale : Nat → Nat → F) (data : List (List F)) (k : Nat)
    (epsilon : F) :
    Nat → Nat → List (List F) → List (List (List F)) → Option (FitState F)
  | 0, i, centroids, clusters => some ⟨centroids, clusters, i⟩
  | fuel + 1, i, centroids, clusters =>
    match assign_clusters sqrt data centroids clusters k with
    | none => none
    | some clusters1 =>
      match calculate_centroids (stale i) clusters1 k with
      | none => none
      | some new_centroids =>
        if centroids_converged sqrt centroids new_centroids epsilon then
          some ⟨new_centroids, clusters1, i + 1⟩
        else
          fit_loop sqrt stale data k epsilon fuel (i + 1) new_centroids clusters1

/-- The engine part of `fit`, from the point where the cluster array of `k`
slots has been allocated: the slots are set to NULL, then the loop runs.  The
conversion of the arguments and the allocation are in `fit_call`. -/
def fit_run (sqrt : F → F) (stale : Nat → Nat → F) (initial_centroids data : List (List F))
    (k : Nat) (iter : Int) (epsilon : F) : Option (FitState F) :=
  fit_loop sqrt stale data k epsilon iter.toNat 0 initial_centroids (List.replicate k [])

/-- The centroid chain that `fit` hands back to the caller. -/
def fit (sqrt : F → F) (stale : Nat → Nat → F) (initial_centroids data : List (List F))
    (k : Nat) (iter : Int) (epsilon : F) : Option (List (List F)) :=
  (fit_run sqrt stale initial_centroids data k iter epsilon).map FitState.centroids

/-- One assignment/aggregation pass of the driver, from a centroid set to the
candidate set: `assign_clusters` into an array of `k` slots, then
`calculate_centroids`.  `stale j` is the unwritten value met for cluster `j`
in this pass. -/
def step (sqrt : F → F) (stale : Nat → F) (data : List (List F)) (k : Nat)
    (centroids : List (List F)) : Option (List (List F)) :=
  match assign_clusters sqrt data centroids (List.replicate k []) k with
  | none => none
  | some clusters => calculate_centroids stale clusters k

/-- The centroid set after `j` passes run one after the other, with no stop
rule; pass number `i` (counted from `0`) meets the unwritten values
`stale i`. -/
def step_iterate (sqrt : F → F) (stale : Nat → Nat → F) (data : List (List F)) (k : Nat)
    (initial_centroids : List (List F)) : Nat → Option (List (List F))
  | 0 => some initial_centroids
  | j + 1 =>
    match step_iterate sqrt stale data k initial_centroids j with
    | none => none
    | some c => step sqrt (stale j) data k c

/-- The sum, over the members of one cluster, of the squared distance to the
centroid of that cluster. -/
def cluster_cost (sqrt : F → F) (members : List (List F)) (centroid : List F) : F :=
  (members.map (fun p => (euclidean_distance sqrt p centroid) ^ 2)).sum

/-- The k-means objective of a centroid set: the dataset is assigned against
the centroids by `assign_clusters`, and the squared distances from every point
to the centroid of its cluster are added up. -/
def objective (sqrt : F → F) (data : List (List F)) (k : Nat) (centroids : List (List F)) :
    Option F :=
  match assign_clusters sqrt data centroids (List.replicate k []) k with
  | none => none
  | some clusters => some (List.zipWith (cluster_cost sqrt) clusters centroids).sum

/-- The heap content that a call of the Python method `fit` meets in the cells
it reads before writing them.  `accumulator i j` is the value in the node that
`init_empty_cord` leaves unwritten in pass `i` for cluster `j`.  `data_value i`
and `centroid_value i` are the values in the single node built for row `i` of
the data, respectively of the initial centroids, when that row has no entry.
`data_cords` and `centroid_cords` are what the `cords` field of the single
vector built for an empty list leads to, the field never being written:
`some c` when it leads to the well-formed chain `c` (`some []` when the heap
held NULL), `none` when it cannot be walked. -/
structure Heap (F : Type) where
  accumulator : Nat → Nat → F
  data_value : Nat → F
  centroid_value : Nat → F
  data_cords : Option (List F)
  centroid_cords : Option (List F)

/-- The outcome of a call of the Python method `fit`: a list handed back to the
caller, the `MemoryError` raised when the cluster array cannot be allocated,
or undefined behaviour. -/
inductive FitResult (F : Type) where
  | result : List (List F) → FitResult F
  | memory_error : FitResult F
  | undefined : FitResult F

/-- The inner loop of `create_vectors_from_pyobject` for one row: the head node
is allocated before the loop, so a row without entries gives one node whose
value is never written. -/
def create_cords (value : F) : List F → List F
  | [] => [value]
  | x :: xs => x :: xs

/-- The outer loop of `create_vectors_from_pyobject` from row `i` on. -/
def create_vectors_loop (value : Nat → F) : Nat → List (List F) → List (List F)
  | _, [] => []
  | i, row :: rest => create_cords (value i) row :: create_vectors_loop value (i + 1) rest

/-- The function `create_vectors_from_pyobject`.  The head vector is allocated
before the loop: an empty list gives one vector whose `cords` field is never
written, and that vector is walked later (at the latest by `free_vectors`). -/
def create_vectors_from_pyobject (value : Nat → F) (cords : Option (List F)) :
    List (List F) → Option (List (List F))
  | [] => cords.map (fun c => [c])
  | row :: rest => some (create_vectors_loop value 0 (row :: rest))

/-- The function `vector_to_pyobject`: every vector becomes a list of its
coordinates, in order. -/
def vector_to_pyobject (head_vec : List (List F)) : List (List F) :=
  head_vec.map (fun cords => cords.map (fun value => value))

/-- A call of the Python method `fit` with arguments of the right types: both
lists are converted, the cluster array of `k` slots is allocated (the request
`k * sizeof(struct vector *)` cannot be served for a negative `k`, and is taken
to be served otherwise), the loop runs, and the centroid chain is converted
back. -/
def fit_call (sqrt : F → F) (heap : Heap F) (initial_centroids_py data_py : List (List F))
    (k iter : Int) (epsilon : F) : FitResult F :=
  match create_vectors_from_pyobject heap.data_value heap.data_cords data_py with
  | none => FitResult.undefined
  | some data =>
    match create_vectors_from_pyobject heap.centroid_value heap.centroid_cords
        initial_centroids_py with
    | none => FitResult.undefined
    | some centroids =>
      if k < 0 then FitResult.memory_error
      else
        match fit_run sqrt heap.accumulator centroids data k.toNat iter epsilon with
        | none => FitResult.undefined
        | some st => FitResult.result (vector_to_pyobject st.centroids)

/-- The scan of the reference description, written from the words of the
specification: the running minimum is compared by strict less-than only, with
no sentinel test. -/
def reference_scan (sqrt : F → F) (cords : List F) :
    Nat → Nat → List (List F) → F → Nat → Option Nat
  | 0, _, _, _, min_index => some min_index
  | _ + 1, _, [], _, _ => none
  | fuel + 1, i, c :: curr_centroid, min_dist, min_index =>
    let dist := euclidean_distance sqrt cords c
    if dist < min_dist then
      reference_scan sqrt cords fuel (i + 1) curr_centroid dist i
    else
      reference_scan sqrt cords fuel (i + 1) curr_centroid min_dist min_index

/-- The index chosen by the reference description, written from the words of
the specification: the running minimum is seeded with the distance to
centroid `0` and index `0`, and the centroids `1 .. k-1` are then scanned in
order, replacing the minimum only on strict less-than. -/
def reference_closest_index (sqrt : F → F) (centroids : List (List F)) (k : Nat)
    (cords : List F) : Option Nat :=
  match centroids with
  | [] => none
  | c0 :: curr_centroid =>
    reference_scan sqrt cords (k - 1) 1 curr_centroid (euclidean_distance sqrt cords c0) 0

/-! ## The assignment step: reset, scan and dataset loop -/

/-- Writing `e` at position `n` of a list whose first `n` entries are already `e`. -/
theorem set_replicate_drop {α : Type} (e : α) :
    ∀ (n : Nat) (l : List α), n < l.length →
      (List.replicate n e ++ l.drop n).set n e = List.replicate (n + 1) e ++ l.drop (n + 1)
  | 0, [], h => by simp at h
  | 0, _ :: _, _ => by simp
  | n + 1, [], h => by simp at h
  | n + 1, a :: t, h => by
    have ih := set_replicate_drop e n t (by simpa using h)
    simp only [List.replicate_succ, List.drop_succ_cons, List.cons_append, List.set_cons_succ]
    rw [ih]
    simp [List.replicate_succ]

/-- The reset loop on an array of at least `k` slots: the first `k` slots become
NULL, the others keep their content. -/
theorem assign_clusters_reset_eq {α : Type} (clusters : List (List (List α))) (k : Nat)
    (hk : k ≤ clusters.length) :
    assign_clusters_reset clusters k = some (List.replicate k [] ++ clusters.drop k) := by
  unfold assign_clusters_reset
  induction k with
  | zero => simp
  | succ n ih =>
    rw [List.range_succ, List.foldlM_append, ih (by omega)]
    have hlen : n < (List.replicate n ([] : List (List α)) ++ List.drop n clusters).length := by
      simp; omega
    simp only [Option.bind_eq_bind, Option.some_bind, List.foldlM_cons, List.foldlM_nil, if_pos hlen]
    simp only [Option.pure_def, Option.bind_some]
    rw [set_replicate_drop [] n clusters (by omega)]

/-- The reset loop on an array of fewer than `k` slots writes past its end. -/
theorem assign_clusters_reset_none {α : Type} (clusters : List (List (List α))) (k : Nat)
    (hk : clusters.length < k) :
    assign_clusters_reset clusters k = none := by
  unfold assign_clusters_reset
  induction k with
  | zero => simp at hk
  | succ n ih =>
    rw [List.range_succ, List.foldlM_append]
    by_cases h : clusters.length < n
    · rw [ih h]; rfl
    · have hn : n = clusters.length := by omega
      have := assign_clusters_reset_eq clusters n (by omega)
      unfold assign_clusters_reset at this
      rw [this]
      simp [hn]

/-- The scan over at least `fuel` centroids ends, and its answer is either the
index it started with or an index it visited. -/
theorem assign_clusters_scan_lt (sqrt : F → F) (p : List F) :
    ∀ (fuel i : Nat) (cs : List (List F)) (md : F) (mi : Nat), fuel ≤ cs.length →
      ∃ j, assign_clusters_scan sqrt p fuel i cs md mi = some j ∧
        (j = mi ∨ (i ≤ j ∧ j < i + fuel))
  | 0, i, cs, md, mi, _ => ⟨mi, by simp [assign_clusters_scan], Or.inl rfl⟩
  | fuel + 1, i, [], md, mi, h => by simp at h
  | fuel + 1, i, c :: cs, md, mi, h => by
    have hf : fuel ≤ cs.length := by simpa using h
    simp only [assign_clusters_scan]
    split
    · obtain ⟨j, hj, hr⟩ := assign_clusters_scan_lt sqrt p fuel (i + 1) cs
        (euclidean_distance sqrt p c) i hf
      refine ⟨j, hj, Or.inr ?_⟩
      omega
    · obtain ⟨j, hj, hr⟩ := assign_clusters_scan_lt sqrt p fuel (i + 1) cs md mi hf
      refine ⟨j, hj, ?_⟩
      omega

/-- The invariant of the scan when `sqrt` is never negative: the answer is either
the running minimum it started with (all visited distances being no smaller)
or the first visited index whose distance is the least one. -/
theorem assign_clusters_scan_spec (sqrt : F → F) (hs : ∀ x, 0 ≤ sqrt x) (p : List F) :
    ∀ (fuel i : Nat) (cs : List (List F)) (md : F) (mi : Nat), fuel ≤ cs.length →
      ∃ j, assign_clusters_scan sqrt p fuel i cs md mi = some j ∧
        ((j = mi ∧ (fuel = 0 ∨ md ≠ -1) ∧
            ∀ t, t < fuel → md ≤ euclidean_distance sqrt p (cs.getD t [])) ∨
         (∃ t, t < fuel ∧ j = i + t ∧
            (md = -1 ∨ euclidean_distance sqrt p (cs.getD t []) < md) ∧
            (∀ u, u < t → euclidean_distance sqrt p (cs.getD t []) <
              euclidean_distance sqrt p (cs.getD u [])) ∧
            (∀ u, u < fuel → euclidean_distance sqrt p (cs.getD t []) ≤
              euclidean_distance sqrt p (cs.getD u []))))
  | 0, i, cs, md, mi, _ =>
    ⟨mi, by simp [assign_clusters_scan], Or.inl ⟨rfl, Or.inl rfl, by intro t ht; omega⟩⟩
  | fuel + 1, i, [], md, mi, h => by simp at h
  | fuel + 1, i, c :: cs, md, mi, h => by
    have hf : fuel ≤ cs.length := by simpa using h
    have hd : euclidean_distance sqrt p c ≠ -1 := by
      have := hs (euclidean_distance_sum p c 0)
      unfold euclidean_distance
      intro h1
      rw [h1] at this
      linarith
    simp only [assign_clusters_scan]
    split
    next hc =>
      obtain ⟨j, hj, hr⟩ := assign_clusters_scan_spec sqrt hs p fuel (i + 1) cs
        (euclidean_distance sqrt p c) i hf
      refine ⟨j, hj, Or.inr ?_⟩
      rcases hr with ⟨hji, _, hall⟩ | ⟨t, ht, hjt, hlt, hbefore, hall⟩
      · refine ⟨0, by omega, by omega, ?_, by intro u hu; omega, ?_⟩
        · rcases hc with hc | hc
          · exact Or.inr (by simpa using hc)
          · exact Or.inl hc
        · intro u hu
          cases u with
          | zero => simp
          | succ u => simpa using hall u (by omega)
      · have hlt2 : euclidean_distance sqrt p (cs.getD t []) < euclidean_distance sqrt p c := by
          rcases hlt with hlt | hlt
          · exact absurd hlt hd
          · exact hlt
        refine ⟨t + 1, by omega, by omega, ?_, ?_, ?_⟩
        · rcases hc with hc | hc
          · exact Or.inr (by simpa using lt_trans hlt2 hc)
          · exact Or.inl hc
        · intro u hu
          cases u with
          | zero => simpa using hlt2
          | succ u => simpa using hbefore u (by omega)
        · intro u hu
          cases u with
          | zero => simpa using le_of_lt hlt2
          | succ u => simpa using hall u (by omega)
    next hc =>
      have hc1 : ¬ euclidean_distance sqrt p c < md := fun h1 => hc (Or.inl h1)
      have hc2 : md ≠ -1 := fun h1 => hc (Or.inr h1)
      have hle : md ≤ euclidean_distance sqrt p c := not_lt.mp hc1
      obtain ⟨j, hj, hr⟩ := assign_clusters_scan_spec sqrt hs p fuel (i + 1) cs md mi hf
      refine ⟨j, hj, ?_⟩
      rcases hr with ⟨hji, _, hall⟩ | ⟨t, ht, hjt, hlt, hbefore, hall⟩
      · refine Or.inl ⟨hji, Or.inr hc2, ?_⟩
        intro u hu
        cases u with
        | zero => simpa using hle
        | succ u => simpa using hall u (by omega)
      · have hlt2 : euclidean_distance sqrt p (cs.getD t []) < md := by
          rcases hlt with hlt | hlt
          · exact absurd hlt hc2
          · exact hlt
        refine Or.inr ⟨t + 1, by omega, by omega, Or.inr (by simpa using hlt2), ?_, ?_⟩
        · intro u hu
          cases u with
          | zero => simpa using lt_of_lt_of_le hlt2 hle
          | succ u => simpa using hbefore u (by omega)
        · intro u hu
          cases u with
          | zero => simpa using le_of_lt (lt_of_lt_of_le hlt2 hle)
          | succ u => simpa using hall u (by omega)

/-- The index picked for a point, when `sqrt` is never negative: it is below `k`,
strictly closer than every earlier centroid and at least as close as every
centroid. -/
theorem closest_index_spec (sqrt : F → F) (hs : ∀ x, 0 ≤ sqrt x) (centroids : List (List F))
    (k : Nat) (p : List F) (hk : 1 ≤ k) (hc : k ≤ centroids.length) :
    ∃ j, closest_index sqrt centroids k p = some j ∧ j < k ∧
      (∀ u, u < j → euclidean_distance sqrt p (centroids.getD j []) <
          euclidean_distance sqrt p (centroids.getD u [])) ∧
      (∀ u, u < k → euclidean_distance sqrt p (centroids.getD j []) ≤
          euclidean_distance sqrt p (centroids.getD u [])) := by
  obtain ⟨j, hj, hr⟩ := assign_clusters_scan_spec sqrt hs p k 0 centroids (-1) 0 hc
  refine ⟨j, hj, ?_⟩
  rcases hr with ⟨_, h2, _⟩ | ⟨t, ht, hjt, _, hbefore, hall⟩
  · rcases h2 with h2 | h2
    · omega
    · exact absurd rfl h2
  · have : j = t := by omega
    subst this
    exact ⟨ht, hbefore, hall⟩

/-- The index picked for a point is below `k`, whatever `sqrt` is. -/
theorem closest_index_lt (sqrt : F → F) (centroids : List (List F))
    (k : Nat) (p : List F) (hk : 1 ≤ k) (hc : k ≤ centroids.length) :
    ∃ j, closest_index sqrt centroids k p = some j ∧ j < k := by
  obtain ⟨j, hj, hr⟩ := assign_clusters_scan_lt sqrt p k 0 centroids (-1) 0 hc
  exact ⟨j, hj, by omega⟩

/-- Linking a new head into one slot adds one element to the concatenation of the
slots. -/
theorem flatten_set_perm {α : Type} (a : α) :
    ∀ (l : List (List α)) (m : Nat) (old : List α), l[m]? = some old →
      List.Perm (l.set m (a :: old)).flatten (a :: l.flatten)
  | [], m, old, h => by simp at h
  | x :: l, 0, old, h => by
    simp at h
    subst h
    simp
  | x :: l, m + 1, old, h => by
    have ih := flatten_set_perm a l m old (by simpa using h)
    simp only [List.set_cons_succ, List.flatten_cons]
    exact (List.Perm.append_left x ih).trans List.perm_middle

/-- The dataset loop: it succeeds when every point is non-empty and gets an index
inside the array; slot `j` receives, newest first, the points whose index is
`j`, in front of what it held. -/
theorem assign_clusters_loop_spec (sqrt : F → F) (centroids : List (List F)) (k : Nat) :
    ∀ (data : List (List F)) (clusters : List (List (List F))),
      (∀ p ∈ data, p ≠ []) →
      (∀ p ∈ data, ∃ j, closest_index sqrt centroids k p = some j ∧ j < clusters.length) →
      ∃ out, assign_clusters_loop sqrt centroids k data clusters = some out ∧
        out.length = clusters.length ∧
        (∀ j, out[j]? = (clusters[j]?).map (fun old =>
          (data.filter (fun p => decide (closest_index sqrt centroids k p = some j))).reverse
            ++ old)) ∧
        List.Perm out.flatten (data ++ clusters.flatten)
  | [], clusters, _, _ => by
    refine ⟨clusters, by simp [assign_clusters_loop], rfl, ?_, by simp⟩
    intro j
    cases clusters[j]? <;> simp
  | p :: data, clusters, hne, hcl => by
    obtain ⟨m, hm, hml⟩ := hcl p (by simp)
    have hp : p ≠ [] := hne p (by simp)
    obtain ⟨a, t, rfl⟩ := List.exists_cons_of_ne_nil hp
    have hold : clusters[m]? = some clusters[m] := List.getElem?_eq_getElem hml
    obtain ⟨out, hout, hlen, hidx, hperm⟩ :=
      assign_clusters_loop_spec sqrt centroids k data (clusters.set m ((a :: t) :: clusters[m]))
        (fun q hq => hne q (by simp [hq]))
        (fun q hq => by
          obtain ⟨j, hj, hjl⟩ := hcl q (by simp [hq])
          exact ⟨j, hj, by simpa using hjl⟩)
    refine ⟨out, ?_, by simpa using hlen, ?_, ?_⟩
    · simp only [assign_clusters_loop, hm, copy_cords, hold]
      exact hout
    · intro j
      rw [hidx j, List.getElem?_set]
      by_cases hmj : m = j
      · subst hmj
        simp [hml, hold, List.filter_cons, hm]
      · have : ¬ (closest_index sqrt centroids k (a :: t) = some j) := by
          rw [hm]; simpa using hmj
        simp [hmj, List.filter_cons, this]
    · refine hperm.trans ?_
      have h1 := flatten_set_perm (a :: t) clusters m clusters[m] hold
      refine (List.Perm.append_left data h1).trans ?_
      simp only [List.cons_append]
      exact List.perm_middle

/-- An array of NULL slots holds no member. -/
theorem flatten_replicate_nil {α : Type} (k : Nat) :
    (List.replicate k ([] : List α)).flatten = [] := by
  induction k with
  | zero => rfl
  | succ n ih => simp [List.replicate_succ, ih]

/-- The function `assign_clusters` on valid arguments: slot `j < k` holds exactly
the points whose closest index is `j` (newest first), the slots from `k` on
are untouched, and the first `k` slots hold a rearrangement of the dataset. -/
theorem assign_clusters_spec (sqrt : F → F) (data centroids : List (List F))
    (clusters : List (List (List F))) (k : Nat) (hk : 1 ≤ k) (hc : k ≤ centroids.length)
    (hcl : k ≤ clusters.length) (hne : ∀ p ∈ data, p ≠ []) :
    ∃ out, assign_clusters sqrt data centroids clusters k = some out ∧
      out.length = clusters.length ∧
      (∀ j, j < k → out[j]? = some
        (data.filter (fun p => decide (closest_index sqrt centroids k p = some j))).reverse) ∧
      out.drop k = clusters.drop k ∧
      List.Perm (out.take k).flatten data := by
  have hreset := assign_clusters_reset_eq clusters k hcl
  have hclen : (List.replicate k ([] : List (List F)) ++ clusters.drop k).length
      = clusters.length := by
    simp; omega
  obtain ⟨out, hout, hlen, hidx, hperm⟩ :=
    assign_clusters_loop_spec sqrt centroids k data
      (List.replicate k [] ++ clusters.drop k) hne
      (fun p hp => by
        obtain ⟨j, hj, hjk⟩ := closest_index_lt sqrt centroids k p hk hc
        exact ⟨j, hj, by rw [hclen]; omega⟩)
  have hdrop : out.drop k = clusters.drop k := by
    apply List.ext_getElem?
    intro i
    rw [List.getElem?_drop, hidx (k + i)]
    have hfil : (data.filter
        (fun p => decide (closest_index sqrt centroids k p = some (k + i)))) = [] := by
      rw [List.filter_eq_nil_iff]
      intro p hp
      obtain ⟨j, hj, hjk⟩ := closest_index_lt sqrt centroids k p hk hc
      rw [hj]
      simp
      omega
    rw [hfil]
    have : (List.replicate k ([] : List (List F)) ++ clusters.drop k)[k + i]?
        = (clusters.drop k)[i]? := by
      rw [List.getElem?_append_right (by simp)]
      simp
    rw [this]
    cases (clusters.drop k)[i]? <;> simp
  refine ⟨out, ?_, by rw [hlen, hclen], ?_, hdrop, ?_⟩
  · unfold assign_clusters
    rw [hreset]
    exact hout
  · intro j hj
    rw [hidx j]
    have : (List.replicate k ([] : List (List F)) ++ clusters.drop k)[j]? = some [] := by
      rw [List.getElem?_append_left (by simpa using hj)]
      simp [hj]
    rw [this]
    simp
  · have h1 : out.flatten = (out.take k).flatten ++ (clusters.drop k).flatten := by
      rw [← hdrop, ← List.flatten_append, List.take_append_drop]
    have h2 : (List.replicate k ([] : List (List F)) ++ clusters.drop k).flatten
        = (clusters.drop k).flatten := by
      rw [List.flatten_append, flatten_replicate_nil, List.nil_append]
    rw [h1, h2] at hperm
    exact (List.perm_append_right_iff _).mp hperm

/-- The dataset loop never changes the number of slots. -/
theorem assign_clusters_loop_length (sqrt : F → F) (centroids : List (List F)) (k : Nat) :
    ∀ (data : List (List F)) (clusters out : List (List (List F))),
      assign_clusters_loop sqrt centroids k data clusters = some out →
      out.length = clusters.length
  | [], clusters, out, h => by
    simp [assign_clusters_loop] at h
    rw [h]
  | p :: data, clusters, out, h => by
    simp only [assign_clusters_loop] at h
    split at h
    · exact absurd h (by simp)
    · split at h
      · exact absurd h (by simp)
      · split at h
        · exact absurd h (by simp)
        · rw [assign_clusters_loop_length sqrt centroids k data _ out h]
          simp

/-- The function `assign_clusters` never changes the number of slots. -/
theorem assign_clusters_length (sqrt : F → F) (data centroids : List (List F))
    (clusters out : List (List (List F))) (k : Nat)
    (h : assign_clusters sqrt data centroids clusters k = some out) :
    out.length = clusters.length := by
  unfold assign_clusters at h
  by_cases hk : k ≤ clusters.length
  · rw [assign_clusters_reset_eq clusters k hk] at h
    rw [assign_clusters_loop_length sqrt centroids k data _ out h]
    simp
    omega
  · rw [assign_clusters_reset_none clusters k (by omega)] at h
    exact absurd h (by simp)

/-- The array handed to `assign_clusters` does not matter when it has `k` slots -/
theorem assign_clusters_fresh (sqrt : F → F) (data centroids : List (List F))
    (clusters : List (List (List F))) (k : Nat) (h : clusters.length = k) :
    assign_clusters sqrt data centroids clusters k
      = assign_clusters sqrt data centroids (List.replicate k []) k := by
  unfold assign_clusters
  rw [assign_clusters_reset_eq clusters k (by omega),
    assign_clusters_reset_eq (List.replicate k []) k (by simp)]
  have h1 : clusters.drop k = [] := by simp [h]
  have h2 : (List.replicate k ([] : List (List F))).drop k = [] := by simp
  rw [h1, h2]

/-- Every member found in cluster `j` after `assign_clusters` is a point of the
dataset whose closest index is `j`. -/
theorem mem_cluster_closest (sqrt : F → F) (data centroids : List (List F))
    (clusters : List (List (List F))) (k : Nat) (hk : 1 ≤ k) (hc : k ≤ centroids.length)
    (hcl : k ≤ clusters.length) (hne : ∀ p ∈ data, p ≠ []) :
    ∃ out, assign_clusters sqrt data centroids clusters k = some out ∧
      ∀ j members p, j < k → out[j]? = some members → p ∈ members →
        p ∈ data ∧ closest_index sqrt centroids k p = some j := by
  obtain ⟨out, hout, _, hidx, _, _⟩ :=
    assign_clusters_spec sqrt data centroids clusters k hk hc hcl hne
  refine ⟨out, hout, ?_⟩
  intro j members p hj hm hp
  rw [hidx j hj] at hm
  simp only [Option.some.injEq] at hm
  subst hm
  simpa using hp

/-! ## The aggregation step -/

/-- Adding a chain into an accumulator keeps the length of the accumulator. -/
theorem add_one_cord_values_to_another_cord_length :
    ∀ (v acc : List F), (add_one_cord_values_to_another_cord v acc).length = acc.length
  | [], acc => by simp [add_one_cord_values_to_another_cord]
  | _ :: _, [] => by simp [add_one_cord_values_to_another_cord]
  | f :: fs, t :: ts => by
    simp [add_one_cord_values_to_another_cord, add_one_cord_values_to_another_cord_length fs ts]

/-- Adding a chain into an accumulator, coordinate by coordinate. -/
theorem add_one_cord_values_to_another_cord_getD :
    ∀ (v acc : List F) (c : Nat), c < acc.length →
      (add_one_cord_values_to_another_cord v acc).getD c 0 = acc.getD c 0 + v.getD c 0
  | [], acc, c, _ => by simp [add_one_cord_values_to_another_cord]
  | _ :: _, [], c, h => by simp at h
  | f :: fs, t :: ts, 0, _ => by simp [add_one_cord_values_to_another_cord]
  | f :: fs, t :: ts, c + 1, h => by
    have := add_one_cord_values_to_another_cord_getD fs ts c (by simpa using h)
    simpa [add_one_cord_values_to_another_cord] using this

/-- The member loop as a fold: the count grows by the number of members. -/
theorem calculate_centroids_sum_eq :
    ∀ (members : List (List F)) (count : Int) (acc : List F),
      calculate_centroids_sum members count acc =
        (count + members.length,
          members.foldl (fun a v => add_one_cord_values_to_another_cord v a) acc)
  | [], count, acc => by simp [calculate_centroids_sum]
  | v :: rest, count, acc => by
    simp only [calculate_centroids_sum, calculate_centroids_sum_eq rest, List.length_cons,
      List.foldl_cons]
    congr 1
    push_cast
    ring

/-- Summing the members keeps the length of the accumulator. -/
theorem foldl_add_length :
    ∀ (members : List (List F)) (acc : List F),
      (members.foldl (fun a v => add_one_cord_values_to_another_cord v a) acc).length
        = acc.length
  | [], acc => rfl
  | v :: rest, acc => by
    simp only [List.foldl_cons]
    rw [foldl_add_length rest, add_one_cord_values_to_another_cord_length]

/-- Summing the members, coordinate by coordinate. -/
theorem foldl_add_getD :
    ∀ (members : List (List F)) (acc : List F) (c : Nat), c < acc.length →
      (members.foldl (fun a v => add_one_cord_values_to_another_cord v a) acc).getD c 0
        = acc.getD c 0 + (members.map (fun v => v.getD c 0)).sum
  | [], acc, c, _ => by simp
  | v :: rest, acc, c, h => by
    simp only [List.foldl_cons, List.map_cons, List.sum_cons]
    rw [foldl_add_getD rest _ c (by rw [add_one_cord_values_to_another_cord_length]; exact h),
      add_one_cord_values_to_another_cord_getD v acc c h]
    ring

/-- The chain from `init_empty_cord` has `length` nodes (one node for `length = 0`). -/
theorem init_empty_cord_length (stale : F) (n : Nat) :
    (init_empty_cord stale (n : Int)).length = (n - 1) + 1 := by
  simp [init_empty_cord]

/-- The chain from `init_empty_cord`: zeros, except for the last node, which holds
the unwritten value. -/
theorem init_empty_cord_getD (stale : F) (n c : Nat) :
    (init_empty_cord stale (n : Int)).getD c 0 = if c = n - 1 then stale else 0 := by
  have hn : ((n : Int) - 1).toNat = n - 1 := by omega
  unfold init_empty_cord
  rw [hn, List.getD_eq_getElem?_getD]
  by_cases h1 : c < n - 1
  · rw [List.getElem?_append_left (by simpa using h1)]
    have : c ≠ n - 1 := by omega
    simp [this, h1]
  · rw [List.getElem?_append_right (by simpa using h1)]
    by_cases h2 : c = n - 1
    · simp [h2]
    · have : c - (n - 1) ≠ 0 := by omega
      obtain ⟨m, hm⟩ := Nat.exists_eq_succ_of_ne_zero this
      rw [List.length_replicate, hm]
      simp [h2]

/-- What the loop body computes for one non-empty cluster, coordinate by
coordinate. -/
theorem calculate_centroids_one_spec (stale : F) (first : List F) (rest : List (List F)) :
    ∃ c, calculate_centroids_one stale (first :: rest) = some c ∧
      c.length = (first.length - 1) + 1 ∧
      ∀ t, t < (first.length - 1) + 1 →
        c.getD t 0 = ((if t = first.length - 1 then stale else 0) +
          ((first :: rest).map (fun v => v.getD t 0)).sum) / (((rest.length + 1 : Nat) : Int) : F) := by
  refine ⟨_, rfl, ?_, ?_⟩
  · simp only [divide_cord_values_by_number, List.length_map, calculate_centroids_sum_eq,
      get_cord_length]
    rw [foldl_add_length, init_empty_cord_length]
  · intro t ht
    simp only [divide_cord_values_by_number, calculate_centroids_sum_eq, get_cord_length]
    rw [List.getD_eq_getElem?_getD, List.getElem?_map]
    have hlen : t < (List.foldl (fun a v => add_one_cord_values_to_another_cord v a)
        (init_empty_cord stale (first.length : Int)) (first :: rest)).length := by
      rw [foldl_add_length, init_empty_cord_length]; exact ht
    rw [List.getElem?_eq_getElem hlen]
    simp only [Option.map_some', Option.getD_some]
    have h2 := foldl_add_getD (first :: rest) (init_empty_cord stale (first.length : Int)) t
      (by rw [init_empty_cord_length]; exact ht)
    rw [List.getD_eq_getElem?_getD, List.getElem?_eq_getElem hlen, Option.getD_some,
      init_empty_cord_getD] at h2
    rw [h2]
    simp

/-- The cluster loop of `calculate_centroids` when the clusters it visits are
non-empty. -/
theorem calculate_centroids_loop_spec (stale : Nat → F) (clusters : List (List (List F))) :
    ∀ (fuel i : Nat) (acc : List (List F)),
      (∀ j, i ≤ j → j < i + fuel → ∃ cl, clusters[j]? = some cl ∧ cl ≠ []) →
      ∃ new, calculate_centroids_loop stale clusters fuel i acc = some (acc ++ new) ∧
        new.length = fuel ∧
        ∀ t, t < fuel → ∃ cl, clusters[i + t]? = some cl ∧
          calculate_centroids_one (stale (i + t)) cl = new[t]?
  | 0, i, acc, _ => ⟨[], by simp [calculate_centroids_loop], rfl, by intro t ht; omega⟩
  | fuel + 1, i, acc, h => by
    obtain ⟨cl, hcl, hne⟩ := h i (le_refl i) (by omega)
    obtain ⟨first, rest, rfl⟩ := List.exists_cons_of_ne_nil hne
    obtain ⟨c, hc, _⟩ := calculate_centroids_one_spec (stale i) first rest
    obtain ⟨new, hnew, hlen, hidx⟩ := calculate_centroids_loop_spec stale clusters fuel (i + 1)
      (acc ++ [c]) (fun j h1 h2 => h j (by omega) (by omega))
    refine ⟨c :: new, ?_, by simp [hlen], ?_⟩
    · simp only [calculate_centroids_loop, hcl, hc]
      rw [hnew]
      simp
    · intro t ht
      cases t with
      | zero => exact ⟨first :: rest, hcl, by simpa using hc⟩
      | succ t =>
        obtain ⟨cl, h1, h2⟩ := hidx t (by omega)
        refine ⟨cl, ?_, ?_⟩
        · rw [← h1]; congr 1; omega
        · rw [List.getElem?_cons_succ, ← h2]; congr 2; omega

/-- The function `calculate_centroids` on `k` non-empty clusters: `k` centroids, in
the order of the clusters. -/
theorem calculate_centroids_spec (stale : Nat → F) (clusters : List (List (List F))) (k : Nat)
    (h : ∀ j, j < k → ∃ cl, clusters[j]? = some cl ∧ cl ≠ []) :
    ∃ new, calculate_centroids stale clusters k = some new ∧ new.length = k ∧
      ∀ j, j < k → ∃ cl, clusters[j]? = some cl ∧
        calculate_centroids_one (stale j) cl = new[j]? := by
  obtain ⟨new, hnew, hlen, hidx⟩ := calculate_centroids_loop_spec stale clusters k 0 []
    (fun j _ hj => h j (by omega))
  refine ⟨new, by simpa [calculate_centroids] using hnew, hlen, ?_⟩
  intro j hj
  simpa using hidx j hj

/-- What `calculate_centroids` returns for `k` non-empty clusters of
`d`-dimensional members: every coordinate but the last is the mean of the
members, and the last one is the mean shifted by `stale i / count`. -/
theorem calculate_centroids_coordinates (stale : Nat → F) (clusters : List (List (List F)))
    (k d : Nat) (hd : 1 ≤ d)
    (hcl : ∀ j, j < k → ∃ cl, clusters[j]? = some cl ∧ cl ≠ [] ∧ ∀ v ∈ cl, v.length = d) :
    ∃ new, calculate_centroids stale clusters k = some new ∧ new.length = k ∧
      ∀ (i : Nat) (cl : List (List F)) (c : List F), i < k → clusters[i]? = some cl →
        new[i]? = some c →
        c.length = d ∧ ∀ t, t < d →
          c.getD t 0 = ((if t = d - 1 then stale i else 0)
            + (cl.map (fun v => v.getD t 0)).sum) / (cl.length : F) := by
  obtain ⟨new, hnew, hlen, hidx⟩ := calculate_centroids_spec stale clusters k
    (fun j hj => by
      obtain ⟨cl, h1, h2, _⟩ := hcl j hj
      exact ⟨cl, h1, h2⟩)
  refine ⟨new, hnew, hlen, ?_⟩
  intro i cl c hi hcli hc
  obtain ⟨cl2, h1, h2, h3⟩ := hcl i hi
  rw [hcli] at h1
  simp only [Option.some.injEq] at h1
  subst h1
  obtain ⟨cl3, h4, h5⟩ := hidx i hi
  rw [hcli] at h4
  simp only [Option.some.injEq] at h4
  subst h4
  obtain ⟨first, rest, rfl⟩ := List.exists_cons_of_ne_nil h2
  obtain ⟨c2, hc2, hc2len, hc2get⟩ := calculate_centroids_one_spec (stale i) first rest
  rw [hc2, hc] at h5
  simp only [Option.some.injEq] at h5
  subst h5
  have hfirst : first.length = d := h3 first (by simp)
  rw [hfirst] at hc2len hc2get
  have hd1 : d - 1 + 1 = d := by omega
  rw [hd1] at hc2len hc2get
  refine ⟨hc2len, ?_⟩
  intro t ht
  rw [hc2get t ht]
  simp

/-! ## The distance and the convergence test -/

/-- The running sum of `euclidean_distance` in closed form. -/
theorem euclidean_distance_sum_eq :
    ∀ (a b : List F) (s : F),
      euclidean_distance_sum a b s =
        s + ∑ i in Finset.range (min a.length b.length), (a.getD i 0 - b.getD i 0) ^ 2
  | [], b, s => by simp [euclidean_distance_sum]
  | _ :: _, [], s => by simp [euclidean_distance_sum]
  | x :: a, y :: b, s => by
    have hmin : min (x :: a).length (y :: b).length = min a.length b.length + 1 := by
      simp [Nat.succ_min_succ]
    rw [hmin, Finset.sum_range_succ', euclidean_distance_sum, euclidean_distance_sum_eq a b]
    simp only [List.getD_cons_succ, List.getD_cons_zero]
    ring

/-- The sum under the square root is never negative. -/
theorem euclidean_distance_sum_nonneg (a b : List F) :
    0 ≤ euclidean_distance_sum a b 0 := by
  rw [euclidean_distance_sum_eq, zero_add]
  exact Finset.sum_nonneg (fun i _ => sq_nonneg _)

/-- A chain is at squared distance `0` from itself. -/
theorem euclidean_distance_sum_self : ∀ (v : List F) (s : F), euclidean_distance_sum v v s = s
  | [], s => rfl
  | a :: v, s => by
    rw [euclidean_distance_sum, euclidean_distance_sum_self v]
    simp

/-- In one dimension the distance is the absolute difference. -/
theorem euclidean_distance_one (a b : ℝ) :
    euclidean_distance Real.sqrt [a] [b] = |a - b| := by
  simp [euclidean_distance, euclidean_distance_sum, Real.sqrt_sq_eq_abs]

/-- A centroid set has converged with respect to itself for every `epsilon ≥ 0`. -/
theorem centroids_converged_self (epsilon : ℝ) (heps : 0 ≤ epsilon) :
    ∀ (R : List (List ℝ)), centroids_converged Real.sqrt R R epsilon = true
  | [] => rfl
  | v :: R => by
    have hd : euclidean_distance Real.sqrt v v = 0 := by
      unfold euclidean_distance
      rw [euclidean_distance_sum_self, Real.sqrt_zero]
    rw [centroids_converged, hd, if_neg (not_lt.mpr heps)]
    exact centroids_converged_self epsilon heps R

/-! ## The driver loop -/

/-- One more pass. -/
theorem step_iterate_succ (sqrt : F → F) (stale : Nat → Nat → F) (data : List (List F))
    (k : Nat) (init c : List (List F)) (i : Nat)
    (h : step_iterate sqrt stale data k init i = some c) :
    step_iterate sqrt stale data k init (i + 1) = step sqrt (stale i) data k c := by
  simp only [step_iterate, h]

/-- When `j` passes succeed, so do the first `m ≤ j` of them. -/
theorem step_iterate_some_of_le (sqrt : F → F) (stale : Nat → Nat → F) (data : List (List F))
    (k : Nat) (init : List (List F)) :
    ∀ (j m : Nat) (R : List (List F)), m ≤ j →
      step_iterate sqrt stale data k init j = some R →
      ∃ c, step_iterate sqrt stale data k init m = some c
  | 0, m, R, hm, h => by
    have : m = 0 := by omega
    subst this
    exact ⟨R, h⟩
  | j + 1, m, R, hm, h => by
    by_cases hmj : m = j + 1
    · subst hmj
      exact ⟨R, h⟩
    · cases hprev : step_iterate sqrt stale data k init j with
      | none =>
        simp only [step_iterate, hprev] at h
        exact absurd h (by simp)
      | some c =>
        exact step_iterate_some_of_le sqrt stale data k init j m c (by omega) hprev

/-- A pass that succeeds went through a successful assignment into `k` slots. -/
theorem step_some (sqrt : F → F) (stale : Nat → F) (data : List (List F)) (k : Nat)
    (c c1 : List (List F)) (h : step sqrt stale data k c = some c1) :
    ∃ cl1, assign_clusters sqrt data c (List.replicate k []) k = some cl1 ∧
      cl1.length = k ∧ calculate_centroids stale cl1 k = some c1 := by
  unfold step at h
  cases hassign : assign_clusters sqrt data c (List.replicate k []) k with
  | none =>
    rw [hassign] at h
    exact absurd h (by simp)
  | some cl1 =>
    rw [hassign] at h
    refine ⟨cl1, rfl, ?_, h⟩
    rw [assign_clusters_length sqrt data c _ cl1 k hassign]
    simp

/-- The loop of `fit`, started at pass `i` on the set reached after `i` passes,
stops at the first later pass whose candidate converged, or when the budget
is used up. -/
theorem fit_loop_stop (sqrt : F → F) (stale : Nat → Nat → F) (data : List (List F)) (k : Nat)
    (epsilon : F) (init : List (List F)) :
    ∀ (fuel i : Nat) (c : List (List F)) (cl : List (List (List F))),
      cl.length = k → step_iterate sqrt stale data k init i = some c →
      ∀ (j : Nat) (P R : List (List F)), i < j → j ≤ i + fuel →
        step_iterate sqrt stale data k init (j - 1) = some P →
        step_iterate sqrt stale data k init j = some R →
        (∀ (m : Nat) (A B : List (List F)), i < m → m < j →
          step_iterate sqrt stale data k init (m - 1) = some A →
          step_iterate sqrt stale data k init m = some B →
          centroids_converged sqrt A B epsilon = false) →
        (centroids_converged sqrt P R epsilon = true ∨ j = i + fuel) →
        ∃ cl2, fit_loop sqrt stale data k epsilon fuel i c cl = some ⟨R, cl2, j⟩
  | 0, i, c, cl, _, _, j, P, R, hij, hjf, _, _, _, _ => by omega
  | fuel + 1, i, c, cl, hcl, hc, j, P, R, hij, hjf, hP, hR, hprev, hstop => by
    obtain ⟨c1, hc1⟩ := step_iterate_some_of_le sqrt stale data k init j (i + 1) R (by omega) hR
    have hstep : step sqrt (stale i) data k c = some c1 := by
      rw [← step_iterate_succ sqrt stale data k init c i hc]; exact hc1
    obtain ⟨cl1, hassign, hlen1, hcalc⟩ := step_some sqrt (stale i) data k c c1 hstep
    rw [← assign_clusters_fresh sqrt data c cl k hcl] at hassign
    simp only [fit_loop, hassign, hcalc]
    by_cases hj : j = i + 1
    · subst hj
      have hPc : P = c := by
        have : i + 1 - 1 = i := by omega
        rw [this, hc] at hP
        exact (Option.some.inj hP).symm
      have hRc : R = c1 := by
        rw [hc1] at hR
        exact (Option.some.inj hR).symm
      subst hPc hRc
      by_cases hcv : centroids_converged sqrt P R epsilon = true
      · rw [if_pos hcv]
        exact ⟨cl1, rfl⟩
      · rw [if_neg hcv]
        have hf : fuel = 0 := by
          rcases hstop with h | h
          · exact absurd h hcv
          · omega
        subst hf
        exact ⟨cl1, by simp [fit_loop]⟩
    · have hnc : centroids_converged sqrt c c1 epsilon = false :=
        hprev (i + 1) c c1 (by omega) (by omega) (by simpa using hc) hc1
      rw [hnc]
      simp only [Bool.false_eq_true, if_false]
      exact fit_loop_stop sqrt stale data k epsilon init fuel (i + 1) c1 cl1 hlen1 hc1 j P R
        (by omega) (by omega) hP hR
        (fun m A B h1 h2 hA hB => hprev m A B (by omega) h2 hA hB)
        (by rcases hstop with h | h
            · exact Or.inl h
            · exact Or.inr (by omega))

/-- One pass on a well-shaped centroid set whose clusters all receive a
member: it succeeds and the candidate set is again well shaped. -/
theorem step_shape (sqrt : F → F) (stale : Nat → F) (data : List (List F)) (k d : Nat)
    (c : List (List F)) (hk : 1 ≤ k) (hd : 1 ≤ d) (hdata : ∀ p ∈ data, p.length = d)
    (hc : c.length = k)
    (hne : ∀ cl, assign_clusters sqrt data c (List.replicate k []) k = some cl →
      ∀ x ∈ cl, x ≠ []) :
    ∃ cl1 c1, assign_clusters sqrt data c (List.replicate k []) k = some cl1 ∧
      cl1.length = k ∧ calculate_centroids stale cl1 k = some c1 ∧
      step sqrt stale data k c = some c1 ∧ c1.length = k ∧ ∀ v ∈ c1, v.length = d := by
  have hpne : ∀ p ∈ data, p ≠ [] := by
    intro p hp h0
    have := hdata p hp
    rw [h0] at this
    simp at this
    omega
  obtain ⟨out, hout, hlen, hidx, _, _⟩ :=
    assign_clusters_spec sqrt data c (List.replicate k []) k hk (by omega) (by simp) hpne
  have hlenk : out.length = k := by simpa using hlen
  have hnonempty := hne out hout
  have hcl : ∀ j, j < k → ∃ cl, out[j]? = some cl ∧ cl ≠ [] := by
    intro j hj
    have hjl : j < out.length := by omega
    exact ⟨out[j], List.getElem?_eq_getElem hjl, hnonempty _ (List.getElem_mem hjl)⟩
  obtain ⟨new, hnew, hnlen, hnidx⟩ := calculate_centroids_spec stale out k hcl
  refine ⟨out, new, hout, hlenk, hnew, ?_, hnlen, ?_⟩
  · simp only [step, hout, hnew]
  · intro v hv
    obtain ⟨j, hjl, hjv⟩ := List.getElem_of_mem hv
    have hj : j < k := by omega
    obtain ⟨cl, hcl1, hone⟩ := hnidx j hj
    rw [List.getElem?_eq_getElem hjl, hjv] at hone
    have hcl2 := hidx j hj
    rw [hcl1] at hcl2
    simp only [Option.some.injEq] at hcl2
    cases cl with
    | nil => simp [calculate_centroids_one] at hone
    | cons first rest =>
      obtain ⟨c2, hc2, hc2len, _⟩ := calculate_centroids_one_spec (stale j) first rest
      rw [hc2] at hone
      simp only [Option.some.injEq] at hone
      subst hone
      have hfirst : first ∈ data := by
        have : first ∈ (data.filter
            (fun p => decide (closest_index sqrt c k p = some j))).reverse := by
          rw [← hcl2]; simp
        rw [List.mem_reverse] at this
        exact (List.mem_filter.mp this).1
      rw [hc2len, hdata first hfirst]
      omega

/-- The loop of `fit` keeps the shape of the centroid set and never runs more
passes than its budget, when no pass that it runs leaves a cluster empty.  A
pass is run only when no earlier candidate converged. -/
theorem fit_loop_shape (sqrt : F → F) (stale : Nat → Nat → F) (data : List (List F))
    (k d : Nat) (epsilon : F) (init : List (List F)) (bound : Nat) (hk : 1 ≤ k) (hd : 1 ≤ d)
    (hdata : ∀ p ∈ data, p.length = d)
    (hne : ∀ (m : Nat) (c : List (List F)) (cl : List (List (List F))), m < bound →
      step_iterate sqrt stale data k init m = some c →
      (∀ (t : Nat) (A B : List (List F)), 1 ≤ t → t ≤ m →
        step_iterate sqrt stale data k init (t - 1) = some A →
        step_iterate sqrt stale data k init t = some B →
        centroids_converged sqrt A B epsilon = false) →
      assign_clusters sqrt data c (List.replicate k []) k = some cl → ∀ x ∈ cl, x ≠ []) :
    ∀ (fuel i : Nat) (c : List (List F)) (cl : List (List (List F))),
      i + fuel ≤ bound → cl.length = k → step_iterate sqrt stale data k init i = some c →
      (∀ (t : Nat) (A B : List (List F)), 1 ≤ t → t ≤ i →
        step_iterate sqrt stale data k init (t - 1) = some A →
        step_iterate sqrt stale data k init t = some B →
        centroids_converged sqrt A B epsilon = false) →
      c.length = k → (∀ v ∈ c, v.length = d) →
      ∃ st, fit_loop sqrt stale data k epsilon fuel i c cl = some st ∧
        st.passes ≤ i + fuel ∧ (1 ≤ fuel → i < st.passes) ∧
        st.centroids.length = k ∧ ∀ v ∈ st.centroids, v.length = d
  | 0, i, c, cl, _, _, _, _, hclen, hcdim =>
    ⟨⟨c, cl, i⟩, by simp [fit_loop], by simp, by intro h; omega, hclen, hcdim⟩
  | fuel + 1, i, c, cl, hb, hcl, hc, hrun, hclen, hcdim => by
    obtain ⟨cl1, c1, hassign, hlen1, hcalc, hstep, hc1len, hc1dim⟩ :=
      step_shape sqrt (stale i) data k d c hk hd hdata hclen
        (fun cl2 h2 => hne i c cl2 (by omega) hc hrun h2)
    rw [← assign_clusters_fresh sqrt data c cl k hcl] at hassign
    simp only [fit_loop, hassign, hcalc]
    by_cases hcv : centroids_converged sqrt c c1 epsilon = true
    · rw [if_pos hcv]
      exact ⟨_, rfl, by simp, by intro _; simp, hc1len, hc1dim⟩
    · rw [if_neg hcv]
      have hc1 : step_iterate sqrt stale data k init (i + 1) = some c1 := by
        rw [step_iterate_succ sqrt stale data k init c i hc]; exact hstep
      have hrun1 : ∀ (t : Nat) (A B : List (List F)), 1 ≤ t → t ≤ i + 1 →
          step_iterate sqrt stale data k init (t - 1) = some A →
          step_iterate sqrt stale data k init t = some B →
          centroids_converged sqrt A B epsilon = false := by
        intro t A B ht1 ht2 hA hB
        by_cases hti : t ≤ i
        · exact hrun t A B ht1 hti hA hB
        · have hte : t = i + 1 := by omega
          subst hte
          rw [Nat.add_sub_cancel, hc] at hA
          rw [hc1] at hB
          simp only [Option.some.injEq] at hA hB
          subst hA hB
          simpa using hcv
      obtain ⟨st, hst, hp1, hp2, hp3, hp4⟩ :=
        fit_loop_shape sqrt stale data k d epsilon init bound hk hd hdata hne fuel (i + 1)
          c1 cl1 (by omega) hlen1 hc1 hrun1 hc1len hc1dim
      refine ⟨st, hst, by omega, ?_, hp3, hp4⟩
      intro _
      cases fuel with
      | zero =>
        simp [fit_loop] at hst
        rw [← hst]
        simp
      | succ n =>
        have := hp2 (by omega)
        omega

/-- A pass on the points `0`, `2` from the centroid `0`. -/
theorem step_example_one :
    step Real.sqrt (fun _ => 0) [[0], [2]] 1 [[0]] = some [[1]] := by
  norm_num [step, calculate_centroids, calculate_centroids_loop, calculate_centroids_one,
    calculate_centroids_sum, init_empty_cord, get_cord_length, divide_cord_values_by_number,
    add_one_cord_values_to_another_cord, assign_clusters, assign_clusters_reset,
    assign_clusters_loop, closest_index, assign_clusters_scan, euclidean_distance_one,
    copy_cords, List.range_succ]

/-- A pass on the points `0`, `2` from the centroid `1`. -/
theorem step_example_two :
    step Real.sqrt (fun _ => 0) [[0], [2]] 1 [[1]] = some [[1]] := by
  norm_num [step, calculate_centroids, calculate_centroids_loop, calculate_centroids_one,
    calculate_centroids_sum, init_empty_cord, get_cord_length, divide_cord_values_by_number,
    add_one_cord_values_to_another_cord, assign_clusters, assign_clusters_reset,
    assign_clusters_loop, closest_index, assign_clusters_scan, euclidean_distance_one,
    copy_cords, List.range_succ]

/-- Two passes on the points `0`, `2` from the centroid `0`. -/
theorem step_iterate_example :
    step_iterate Real.sqrt (fun _ _ => 0) [[0], [2]] 1 [[0]] 0 = some [[0]] ∧
    step_iterate Real.sqrt (fun _ _ => 0) [[0], [2]] 1 [[0]] 1 = some [[1]] ∧
    step_iterate Real.sqrt (fun _ _ => 0) [[0], [2]] 1 [[0]] 2 = some [[1]] := by
  refine ⟨rfl, ?_, ?_⟩
  · simp only [step_iterate, step_example_one]
  · simp only [step_iterate, step_example_one, step_example_two]

/-! ## The objective -/

/-- On `ℝ` the square of the distance is the sum under the square root. -/
theorem sq_euclidean_distance (p c : List ℝ) :
    (euclidean_distance Real.sqrt p c) ^ 2 = euclidean_distance_sum p c 0 := by
  unfold euclidean_distance
  exact Real.sq_sqrt (euclidean_distance_sum_nonneg p c)

/-- The cost of a cluster without square roots. -/
theorem cluster_cost_eq (members : List (List ℝ)) (c : List ℝ) :
    cluster_cost Real.sqrt members c
      = (members.map (fun p => euclidean_distance_sum p c 0)).sum := by
  unfold cluster_cost
  congr 1
  apply List.map_congr_left
  intro p _
  exact sq_euclidean_distance p c

/-- The sum of squared differences from `c`, expanded. -/
theorem sum_map_sub_sq (c : F) :
    ∀ (xs : List F), (xs.map (fun x => (x - c) ^ 2)).sum
      = (xs.map (fun x => x ^ 2)).sum - 2 * c * xs.sum + (xs.length : F) * c ^ 2
  | [] => by simp
  | x :: xs => by
    simp only [List.map_cons, List.sum_cons, List.length_cons, sum_map_sub_sq c xs]
    push_cast
    ring

/-- The mean of a non-empty list of numbers minimises the sum of squared
differences. -/
theorem sum_sq_mean_le (xs : List F) (c : F) (hn : xs ≠ []) :
    (xs.map (fun x => (x - xs.sum / (xs.length : F)) ^ 2)).sum
      ≤ (xs.map (fun x => (x - c) ^ 2)).sum := by
  have hlen : (0 : F) < (xs.length : F) := by
    have : 0 < xs.length := List.length_pos.mpr hn
    exact_mod_cast this
  rw [sum_map_sub_sq, sum_map_sub_sq]
  have hne : (xs.length : F) ≠ 0 := ne_of_gt hlen
  have key : (xs.map (fun x => x ^ 2)).sum - 2 * c * xs.sum + (xs.length : F) * c ^ 2
      - ((xs.map (fun x => x ^ 2)).sum - 2 * (xs.sum / (xs.length : F)) * xs.sum
          + (xs.length : F) * (xs.sum / (xs.length : F)) ^ 2)
      = (xs.length : F) * (c - xs.sum / (xs.length : F)) ^ 2 := by
    field_simp
    ring
  have hnn : 0 ≤ (xs.length : F) * (c - xs.sum / (xs.length : F)) ^ 2 :=
    mul_nonneg (le_of_lt hlen) (sq_nonneg _)
  linarith

/-- A sum over a list of sums over `t < d` is a sum over `t < d` of sums over the
list. -/
theorem sum_map_sum_range {α : Type} (f : α → Nat → F) (d : Nat) :
    ∀ (l : List α), (l.map (fun p => ∑ t in Finset.range d, f p t)).sum
      = ∑ t in Finset.range d, (l.map (fun p => f p t)).sum
  | [] => by simp
  | p :: l => by
    simp only [List.map_cons, List.sum_cons, sum_map_sum_range f d l, Finset.sum_add_distrib]

/-- The sum of a `zipWith` of two lists of length `n`, position by position. -/
theorem sum_zipWith_eq_sum_range {α β : Type} (f : α → β → F) (a0 : α) (b0 : β) :
    ∀ (l1 : List α) (l2 : List β) (n : Nat), l1.length = n → l2.length = n →
      (List.zipWith f l1 l2).sum = ∑ j in Finset.range n, f (l1.getD j a0) (l2.getD j b0)
  | [], [], n, h1, _ => by
    simp at h1
    subst h1
    simp
  | [], _ :: _, n, h1, h2 => by simp at h1 h2; omega
  | _ :: _, [], n, h1, h2 => by simp at h1 h2; omega
  | x :: l1, y :: l2, n, h1, h2 => by
    cases n with
    | zero => simp at h1
    | succ n =>
      rw [Finset.sum_range_succ', List.zipWith_cons_cons, List.sum_cons,
        sum_zipWith_eq_sum_range f a0 b0 l1 l2 n (by simpa using h1) (by simpa using h2)]
      simp only [List.getD_cons_succ, List.getD_cons_zero]
      ring

/-- Summing over the groups of points that share an index is summing over the
points. -/
theorem sum_filter_groups {α : Type} (a : α → Option Nat) (g : α → Nat → F) (k : Nat) :
    ∀ (data : List α), (∀ p ∈ data, ∃ i, i < k ∧ a p = some i) →
      ∑ j in Finset.range k,
          ((data.filter (fun p => decide (a p = some j))).map (fun p => g p j)).sum
        = (data.map (fun p => g p ((a p).getD 0))).sum
  | [], _ => by simp
  | p :: data, h => by
    obtain ⟨i, hi, hap⟩ := h p (by simp)
    have ih := sum_filter_groups a g k data (fun q hq => h q (by simp [hq]))
    have hstep : ∀ j, ((List.filter (fun p => decide (a p = some j)) (p :: data)).map
          (fun p => g p j)).sum
        = (if i = j then g p j else 0)
          + ((data.filter (fun p => decide (a p = some j))).map (fun p => g p j)).sum := by
      intro j
      rw [List.filter_cons]
      by_cases hij : i = j
      · subst hij
        simp [hap]
      · have : ¬ (a p = some j) := by
          rw [hap]; simpa using hij
        simp [this, hij]
    simp only [hstep, Finset.sum_add_distrib, ih, List.map_cons, List.sum_cons, hap,
      Option.getD_some]
    rw [Finset.sum_ite_eq]
    simp [hi]

/-- The cost of an assignment against any centroid chain, summed point by
point. -/
theorem assignment_cost (data : List (List ℝ)) (k : Nat) (a : List ℝ → Option Nat)
    (out : List (List (List ℝ))) (cx : List (List ℝ))
    (hlen : out.length = k) (hcx : cx.length = k)
    (ha : ∀ p ∈ data, ∃ i, i < k ∧ a p = some i)
    (hidx : ∀ j, j < k → out[j]? = some
      (data.filter (fun p => decide (a p = some j))).reverse) :
    (List.zipWith (cluster_cost Real.sqrt) out cx).sum
      = (data.map (fun p => euclidean_distance_sum p (cx.getD ((a p).getD 0) []) 0)).sum := by
  rw [sum_zipWith_eq_sum_range (cluster_cost Real.sqrt) [] [] out cx k hlen hcx,
    ← sum_filter_groups a (fun p j => euclidean_distance_sum p (cx.getD j []) 0) k data ha]
  apply Finset.sum_congr rfl
  intro j hj
  have hj1 : j < k := Finset.mem_range.mp hj
  rw [List.getD_eq_getElem?_getD, hidx j hj1, Option.getD_some, cluster_cost_eq,
    List.map_reverse, List.sum_reverse]

/-- The running sum for two chains of `d` coordinates. -/
theorem euclidean_distance_sum_range (p c : List F) (d : Nat) (hp : p.length = d)
    (hc : c.length = d) :
    euclidean_distance_sum p c 0 = ∑ t in Finset.range d, (p.getD t 0 - c.getD t 0) ^ 2 := by
  rw [euclidean_distance_sum_eq, zero_add, hp, hc, min_self]

/-- With the unwritten node holding `0`, the centroid computed for a cluster
costs no more than any other vector of the same dimension. -/
theorem cluster_cost_mean_le (cl : List (List F)) (d : Nat)
    (hdim : ∀ v ∈ cl, v.length = d) (m c : List F)
    (hm : calculate_centroids_one 0 cl = some m) (hc : c.length = d) (hd : 1 ≤ d) :
    (cl.map (fun p => euclidean_distance_sum p m 0)).sum
      ≤ (cl.map (fun p => euclidean_distance_sum p c 0)).sum := by
  cases cl with
  | nil => simp [calculate_centroids_one] at hm
  | cons first rest =>
    obtain ⟨m2, hm2, hmlen, hmget⟩ := calculate_centroids_one_spec (0 : F) first rest
    rw [hm] at hm2
    simp only [Option.some.injEq] at hm2
    subst hm2
    have hfirst : first.length = d := hdim first (by simp)
    have hd1 : d - 1 + 1 = d := by omega
    rw [hfirst, hd1] at hmlen hmget
    have h1 : ∀ (x : List F), x.length = d →
        ((first :: rest).map (fun p => euclidean_distance_sum p x 0)).sum
          = ∑ t in Finset.range d,
              (((first :: rest).map (fun v => v.getD t 0)).map
                (fun y => (y - x.getD t 0) ^ 2)).sum := by
      intro x hx
      have hswap := sum_map_sum_range
        (fun (p : List F) (t : Nat) => (p.getD t 0 - x.getD t 0) ^ 2) d (first :: rest)
      simp only [List.map_map, Function.comp_def]
      rw [← hswap]
      congr 1
      apply List.map_congr_left
      intro p hp
      exact euclidean_distance_sum_range p x d (hdim p hp) hx
    rw [h1 m hmlen, h1 c hc]
    apply Finset.sum_le_sum
    intro t ht
    have ht1 : t < d := Finset.mem_range.mp ht
    have hmean : m.getD t 0 = ((first :: rest).map (fun v => v.getD t 0)).sum
        / ((((first :: rest).map (fun v => v.getD t 0)).length : Nat) : F) := by
      rw [hmget t ht1]
      simp
    rw [hmean]
    exact sum_sq_mean_le _ _ (by simp)

/-- Lloyd monotonicity of one pass when the unwritten accumulator node holds
`0` (with `double` read as `ℝ`): for `k ≥ 1` centroids and points that all have
`d ≥ 1` coordinates, if the assignment against `C` leaves no cluster empty,
then the pass succeeds and the objective of the new centroid set is at most
the objective of `C`. -/
theorem objective_step_le_of_stale_zero (data C : List (List ℝ)) (k d : Nat) (hk : 1 ≤ k)
    (hd : 1 ≤ d) (hC : C.length = k) (hdata : ∀ p ∈ data, p.length = d)
    (hCdim : ∀ c ∈ C, c.length = d)
    (hne : ∀ cl, assign_clusters Real.sqrt data C (List.replicate k []) k = some cl →
      ∀ x ∈ cl, x ≠ []) :
    ∃ o1 C1 o2, objective Real.sqrt data k C = some o1 ∧
      step Real.sqrt (fun _ => 0) data k C = some C1 ∧
      objective Real.sqrt data k C1 = some o2 ∧ o2 ≤ o1 := by
  have hpne : ∀ p ∈ data, p ≠ [] := by
    intro p hp h0
    have := hdata p hp
    rw [h0] at this
    simp at this
    omega
  obtain ⟨cl1, C1, hassign, hlen1, hcalc, hstep, hC1len, hC1dim⟩ :=
    step_shape Real.sqrt (fun _ => (0 : ℝ)) data k d C hk hd hdata hC hne
  obtain ⟨out, hout, _, hidx, _, _⟩ :=
    assign_clusters_spec Real.sqrt data C (List.replicate k []) k hk (by omega) (by simp) hpne
  rw [hassign] at hout
  simp only [Option.some.injEq] at hout
  subst hout
  obtain ⟨out2, hout2, hlen2, hidx2, _, _⟩ :=
    assign_clusters_spec Real.sqrt data C1 (List.replicate k []) k hk (by omega) (by simp) hpne
  have hlen2k : out2.length = k := by simpa using hlen2
  have ha : ∀ p ∈ data, ∃ i, i < k ∧ closest_index Real.sqrt C k p = some i := by
    intro p _
    obtain ⟨j, hj, hjk⟩ := closest_index_lt Real.sqrt C k p hk (by omega)
    exact ⟨j, hjk, hj⟩
  have ha2 : ∀ p ∈ data, ∃ i, i < k ∧ closest_index Real.sqrt C1 k p = some i := by
    intro p _
    obtain ⟨j, hj, hjk⟩ := closest_index_lt Real.sqrt C1 k p hk (by omega)
    exact ⟨j, hjk, hj⟩
  have e2 := assignment_cost data k (closest_index Real.sqrt C k) cl1 C1 hlen1 hC1len ha hidx
  have e3 := assignment_cost data k (closest_index Real.sqrt C1 k) out2 C1 hlen2k hC1len ha2 hidx2
  refine ⟨(List.zipWith (cluster_cost Real.sqrt) cl1 C).sum, C1,
    (List.zipWith (cluster_cost Real.sqrt) out2 C1).sum,
    by simp only [objective, hassign], hstep, by simp only [objective, hout2], ?_⟩
  -- the new assignment is pointwise no worse than the old one on the new centroids
  have hB : (List.zipWith (cluster_cost Real.sqrt) out2 C1).sum
      ≤ (List.zipWith (cluster_cost Real.sqrt) cl1 C1).sum := by
    rw [e3, e2]
    apply List.sum_le_sum
    intro p hp
    obtain ⟨i, hik, hi⟩ := ha p hp
    obtain ⟨j, hj, _, _, hall⟩ :=
      closest_index_spec Real.sqrt Real.sqrt_nonneg C1 k p hk (by omega)
    rw [hi, hj, Option.getD_some, Option.getD_some, ← sq_euclidean_distance,
      ← sq_euclidean_distance]
    exact pow_le_pow_left₀ (Real.sqrt_nonneg _) (hall i hik) 2
  -- the new centroids are no worse than the old ones on the old assignment
  have hCl : ∀ j, j < k → ∃ cl, cl1[j]? = some cl ∧ cl ≠ [] := by
    intro j hj
    have hjl : j < cl1.length := by omega
    exact ⟨cl1[j], List.getElem?_eq_getElem hjl, hne cl1 hassign _ (List.getElem_mem hjl)⟩
  obtain ⟨new, hnew, _, hnidx⟩ := calculate_centroids_spec (fun _ => (0 : ℝ)) cl1 k hCl
  rw [hcalc] at hnew
  simp only [Option.some.injEq] at hnew
  subst hnew
  have hA : (List.zipWith (cluster_cost Real.sqrt) cl1 C1).sum
      ≤ (List.zipWith (cluster_cost Real.sqrt) cl1 C).sum := by
    rw [sum_zipWith_eq_sum_range (cluster_cost Real.sqrt) [] [] cl1 C1 k hlen1 hC1len,
      sum_zipWith_eq_sum_range (cluster_cost Real.sqrt) [] [] cl1 C k hlen1 hC]
    apply Finset.sum_le_sum
    intro j hj
    have hjk : j < k := Finset.mem_range.mp hj
    obtain ⟨cl, hcl, hone⟩ := hnidx j hjk
    have hjC1 : j < C1.length := by omega
    have hjC : j < C.length := by omega
    rw [List.getElem?_eq_getElem hjC1] at hone
    have hclj : cl1.getD j [] = cl := by
      rw [List.getD_eq_getElem?_getD, hcl, Option.getD_some]
    have hC1j : C1.getD j [] = C1[j] := by
      rw [List.getD_eq_getElem?_getD, List.getElem?_eq_getElem hjC1, Option.getD_some]
    have hCj : C.getD j [] = C[j] := by
      rw [List.getD_eq_getElem?_getD, List.getElem?_eq_getElem hjC, Option.getD_some]
    rw [hclj, hC1j, hCj, cluster_cost_eq, cluster_cost_eq]
    have hmem : ∀ v ∈ cl, v.length = d := by
      intro v hv
      have h2 := hidx j hjk
      rw [hcl] at h2
      simp only [Option.some.injEq] at h2
      rw [h2, List.mem_reverse] at hv
      exact hdata v (List.mem_filter.mp hv).1
    exact cluster_cost_mean_le cl d hmem C1[j] C[j] hone
      (hCdim _ (List.getElem_mem hjC)) hd
  exact le_trans hB hA

/-! ## The claims -/

/-- C1 (assignment minimality).  With `double` read as `ℝ`: for every dataset
of non-empty points, every `k ≥ 1`, every centroid chain of at least `k`
vectors and every cluster array of at least `k` slots, `assign_clusters`
succeeds, and every point `p` found in cluster `j < k` afterwards is at least
as close to centroid `j` as to every centroid `i < k`. -/
theorem assign_clusters_minimal (data centroids : List (List ℝ))
    (clusters : List (List (List ℝ))) (k : Nat) (hk : 1 ≤ k) (hc : k ≤ centroids.length)
    (hcl : k ≤ clusters.length) (hne : ∀ p ∈ data, p ≠ []) :
    ∃ out, assign_clusters Real.sqrt data centroids clusters k = some out ∧
      ∀ j members p cj, j < k → out[j]? = some members → p ∈ members →
        centroids[j]? = some cj →
        ∀ i ci, i < k → centroids[i]? = some ci →
          euclidean_distance Real.sqrt p cj ≤ euclidean_distance Real.sqrt p ci := by
  obtain ⟨out, hout, hmem⟩ :=
    mem_cluster_closest Real.sqrt data centroids clusters k hk hc hcl hne
  refine ⟨out, hout, ?_⟩
  intro j members p cj hj hm hp hcj i ci hi hci
  obtain ⟨_, hclose⟩ := hmem j members p hj hm hp
  obtain ⟨j2, hj2, _, _, hall⟩ :=
    closest_index_spec Real.sqrt Real.sqrt_nonneg centroids k p hk hc
  rw [hclose] at hj2
  simp only [Option.some.injEq] at hj2
  subst hj2
  have := hall i hi
  simpa [List.getD_eq_getElem?_getD, hcj, hci] using this

/-- C1 on the points `0, 4, 1` and the centroids `0, 4`. -/
theorem assign_clusters_minimal_witness :
    ∃ out, assign_clusters Real.sqrt [[0], [4], [1]] [[0], [4]] [[], []] 2 = some out ∧
      ∀ j members p cj, j < 2 → out[j]? = some members → p ∈ members →
        ([[0], [4]] : List (List ℝ))[j]? = some cj →
        ∀ i ci, i < 2 → ([[0], [4]] : List (List ℝ))[i]? = some ci →
          euclidean_distance Real.sqrt p cj ≤ euclidean_distance Real.sqrt p ci :=
  assign_clusters_minimal [[0], [4], [1]] [[0], [4]] [[], []] 2
    (by decide) (by decide) (by decide) (by simp)

/-- C2 (first-minimum tie-break).  With `double` read as `ℝ`: every point `p`
that `assign_clusters` puts in cluster `j < k` is strictly closer to centroid
`j` than to every centroid of a smaller index `i < j`; so `j` is the smallest
index attaining the minimum distance, and an equal distance further down the
chain never replaces it. -/
theorem assign_clusters_first_minimum (data centroids : List (List ℝ))
    (clusters : List (List (List ℝ))) (k : Nat) (hk : 1 ≤ k) (hc : k ≤ centroids.length)
    (hcl : k ≤ clusters.length) (hne : ∀ p ∈ data, p ≠ []) :
    ∃ out, assign_clusters Real.sqrt data centroids clusters k = some out ∧
      ∀ j members p cj, j < k → out[j]? = some members → p ∈ members →
        centroids[j]? = some cj →
        (∀ i ci, i < j → centroids[i]? = some ci →
          euclidean_distance Real.sqrt p cj < euclidean_distance Real.sqrt p ci) ∧
        (∀ i ci, i < k → centroids[i]? = some ci →
          euclidean_distance Real.sqrt p cj ≤ euclidean_distance Real.sqrt p ci) := by
  obtain ⟨out, hout, hmem⟩ :=
    mem_cluster_closest Real.sqrt data centroids clusters k hk hc hcl hne
  refine ⟨out, hout, ?_⟩
  intro j members p cj hj hm hp hcj
  obtain ⟨_, hclose⟩ := hmem j members p hj hm hp
  obtain ⟨j2, hj2, _, hbefore, hall⟩ :=
    closest_index_spec Real.sqrt Real.sqrt_nonneg centroids k p hk hc
  rw [hclose] at hj2
  simp only [Option.some.injEq] at hj2
  subst hj2
  constructor
  · intro i ci hi hci
    have := hbefore i hi
    simpa [List.getD_eq_getElem?_getD, hcj, hci] using this
  · intro i ci hi hci
    have := hall i hi
    simpa [List.getD_eq_getElem?_getD, hcj, hci] using this

/-- C2 on the points `0, 4, 2` (the last one at equal distance from both
centroids) and the centroids `0, 4`. -/
theorem assign_clusters_first_minimum_witness :
    ∃ out, assign_clusters Real.sqrt [[0], [4], [2]] [[0], [4]] [[], []] 2 = some out ∧
      ∀ j members p cj, j < 2 → out[j]? = some members → p ∈ members →
        ([[0], [4]] : List (List ℝ))[j]? = some cj →
        (∀ i ci, i < j → ([[0], [4]] : List (List ℝ))[i]? = some ci →
          euclidean_distance Real.sqrt p cj < euclidean_distance Real.sqrt p ci) ∧
        (∀ i ci, i < 2 → ([[0], [4]] : List (List ℝ))[i]? = some ci →
          euclidean_distance Real.sqrt p cj ≤ euclidean_distance Real.sqrt p ci) :=
  assign_clusters_first_minimum [[0], [4], [2]] [[0], [4]] [[], []] 2
    (by decide) (by decide) (by decide) (by simp)

/-- C3 at a failing input (one cluster, members `(1,1)` and `(3,5)`, the
unwritten node holding `1`): the first coordinate of the centroid is the mean
`2`, the last one is `7/2` and not the mean `3`. -/
theorem calculate_centroids_last_coordinate_stale :
    calculate_centroids (fun _ => (1 : ℝ)) [[[1, 1], [3, 5]]] 1 = some [[2, 7 / 2]] ∧
      ((([[1, 1], [3, 5]] : List (List ℝ)).map (fun v => v.getD 1 0)).sum / 2 = 3) := by
  norm_num [calculate_centroids, calculate_centroids_loop, calculate_centroids_one,
    calculate_centroids_sum, init_empty_cord, get_cord_length, divide_cord_values_by_number,
    add_one_cord_values_to_another_cord]

/-- C4 (convergence test).  `centroids_converged` answers `true` exactly when
at every position `i` present in both chains the distance between the old and
the new centroid is at most `epsilon`; one position displaced by more than
`epsilon` makes it answer `false`. -/
theorem centroids_converged_iff (sqrt : F → F) (old new : List (List F)) (epsilon : F) :
    (centroids_converged sqrt old new epsilon = true ↔
      ∀ (i : Nat) (o n : List F), old[i]? = some o → new[i]? = some n →
        euclidean_distance sqrt o n ≤ epsilon) ∧
    ((∃ (i : Nat) (o n : List F), old[i]? = some o ∧ new[i]? = some n ∧
        epsilon < euclidean_distance sqrt o n) →
      centroids_converged sqrt old new epsilon = false) := by
  have key : ∀ (old new : List (List F)),
      centroids_converged sqrt old new epsilon = true ↔
        ∀ (i : Nat) (o n : List F), old[i]? = some o → new[i]? = some n →
          euclidean_distance sqrt o n ≤ epsilon := by
    intro old
    induction old with
    | nil => intro new; simp [centroids_converged]
    | cons o os ih =>
      intro new
      cases new with
      | nil => simp [centroids_converged]
      | cons n ns =>
        simp only [centroids_converged]
        by_cases h : euclidean_distance sqrt o n > epsilon
        · simp only [h, if_true]
          constructor
          · intro h1; exact absurd h1 (by simp)
          · intro h1
            have := h1 0 o n (by simp) (by simp)
            exact absurd h (not_lt.mpr this)
        · simp only [h, if_false]
          rw [ih ns]
          constructor
          · intro h1 i o2 n2 ho hn
            cases i with
            | zero =>
              simp at ho hn
              subst ho hn
              exact not_lt.mp h
            | succ i => exact h1 i o2 n2 (by simpa using ho) (by simpa using hn)
          · intro h1 i o2 n2 ho hn
            exact h1 (i + 1) o2 n2 (by simpa using ho) (by simpa using hn)
  refine ⟨key old new, ?_⟩
  rintro ⟨i, o, n, ho, hn, hlt⟩
  cases hcv : centroids_converged sqrt old new epsilon with
  | false => rfl
  | true =>
    have := (key old new).mp hcv i o n ho hn
    exact absurd hlt (not_lt.mpr this)

/-- C5 (driver stop rule).  Write `step_iterate j` for the centroid set after
`j` passes from the initial set (each pass is `assign_clusters` followed by
`calculate_centroids`).  Let `max_iterations ≥ 1` and let `j` in
`1 .. max_iterations` be such that the passes up to `j` succeed, no earlier
index `m < j` has `step_iterate (m-1)` and `step_iterate m` pass
`centroids_converged`, and either `step_iterate (j-1)` and `step_iterate j`
pass it or `j = max_iterations`.  Then the loop of `fit` runs exactly `j`
passes and returns `step_iterate j`: the candidate, not the previous set. -/
theorem fit_stop_rule (sqrt : F → F) (stale : Nat → Nat → F)
    (initial_centroids data : List (List F)) (k : Nat) (max_iterations : Int) (epsilon : F)
    (j : Nat) (P R : List (List F))
    (hmax : 1 ≤ max_iterations) (hj1 : 1 ≤ j) (hjmax : (j : Int) ≤ max_iterations)
    (hP : step_iterate sqrt stale data k initial_centroids (j - 1) = some P)
    (hR : step_iterate sqrt stale data k initial_centroids j = some R)
    (hleast : ∀ (m : Nat) (A B : List (List F)), 1 ≤ m → m < j →
      step_iterate sqrt stale data k initial_centroids (m - 1) = some A →
      step_iterate sqrt stale data k initial_centroids m = some B →
      centroids_converged sqrt A B epsilon = false)
    (hstop : centroids_converged sqrt P R epsilon = true ∨ (j : Int) = max_iterations) :
    fit sqrt stale initial_centroids data k max_iterations epsilon = some R ∧
      (fit_run sqrt stale initial_centroids data k max_iterations epsilon).map FitState.passes
        = some j := by
  obtain ⟨cl2, h⟩ := fit_loop_stop sqrt stale data k epsilon initial_centroids
    max_iterations.toNat 0 initial_centroids (List.replicate k []) (by simp) rfl j P R
    (by omega) (by omega) hP hR
    (fun m A B h1 h2 hA hB => hleast m A B (by omega) h2 hA hB)
    (by rcases hstop with h | h
        · exact Or.inl h
        · exact Or.inr (by omega))
  unfold fit fit_run
  rw [h]
  exact ⟨rfl, rfl⟩

/-- C5 on the points `0, 2`, one centroid starting at `0`, five passes allowed,
`epsilon = 0`: the second pass is the first one that converged. -/
theorem fit_stop_rule_witness :
    fit Real.sqrt (fun _ _ => 0) [[0]] [[0], [2]] 1 5 0 = some [[1]] ∧
      (fit_run Real.sqrt (fun _ _ => 0) [[0]] [[0], [2]] 1 5 0).map FitState.passes
        = some 2 :=
  fit_stop_rule Real.sqrt (fun _ _ => 0) [[0]] [[0], [2]] 1 5 0 2 [[1]] [[1]]
    (by norm_num) (by norm_num) (by norm_num)
    step_iterate_example.2.1 step_iterate_example.2.2
    (by
      intro m A B h1 h2 hA hB
      have hm : m = 1 := by omega
      subst hm
      rw [step_iterate_example.1] at hA
      rw [step_iterate_example.2.1] at hB
      simp only [Option.some.injEq] at hA hB
      subst hA hB
      norm_num [centroids_converged, euclidean_distance_one])
    (Or.inl (by norm_num [centroids_converged, euclidean_distance_one]))

/-- The example for C6: the assignment of the points `0, 3, 10, 11, 11, 11`
against the centroids `0, 5, 16`. -/
theorem shape_example_assign :
    assign_clusters Real.sqrt [[0], [3], [10], [11], [11], [11]] [[0], [5], [16]]
      (List.replicate 3 []) 3 = some [[[0]], [[10], [3]], [[11], [11], [11]]] := by
  norm_num [assign_clusters, assign_clusters_reset, assign_clusters_loop, closest_index,
    assign_clusters_scan, euclidean_distance_one, copy_cords, List.range_succ,
    List.replicate]

/-- The example for C6: the first pass moves the centroids to `0, 13/2, 11`,
within `epsilon = 100`. -/
theorem shape_example_first_pass :
    step_iterate Real.sqrt (fun _ _ => 0) [[0], [3], [10], [11], [11], [11]] 3
        [[0], [5], [16]] 1 = some [[0], [13 / 2], [11]] ∧
      centroids_converged Real.sqrt [[0], [5], [16]] [[0], [13 / 2], [11]] 100 = true := by
  constructor
  · simp only [step_iterate, step, shape_example_assign]
    norm_num [calculate_centroids, calculate_centroids_loop, calculate_centroids_one,
      calculate_centroids_sum, init_empty_cord, get_cord_length,
      divide_cord_values_by_number, add_one_cord_values_to_another_cord]
  · norm_num [centroids_converged, euclidean_distance_one, abs_le]

/-- The example for C6: a second pass, which the loop never runs, would leave
cluster `1` empty. -/
theorem shape_example_second_pass :
    assign_clusters Real.sqrt [[0], [3], [10], [11], [11], [11]] [[0], [13 / 2], [11]]
      (List.replicate 3 []) 3 = some [[[3], [0]], [], [[11], [11], [11], [10]]] := by
  have h1 : |(13 / 2 : ℝ)| = 13 / 2 := abs_of_pos (by norm_num)
  have h2 : |(7 / 2 : ℝ)| = 7 / 2 := abs_of_pos (by norm_num)
  norm_num [h1, h2, assign_clusters, assign_clusters_reset, assign_clusters_loop, closest_index,
    assign_clusters_scan, euclidean_distance_one, copy_cords, List.range_succ,
    List.replicate]

/-- C6 (iteration bound and result shape).  Let `k ≥ 1`, let the initial
centroid chain hold exactly `k` vectors, let `max_iterations ≥ 1`, let every
point and every initial centroid have `d ≥ 1` coordinates, and let no
assignment pass that the loop runs leave a cluster empty (pass `m` is run when
`m < max_iterations` and none of the candidates of the passes before it
converged).  Then the loop of `fit` returns a centroid set after at least one
and at most `max_iterations` passes, and that set has exactly `k` vectors of
exactly `d` coordinates each. -/
theorem fit_bound_and_shape (sqrt : F → F) (stale : Nat → Nat → F)
    (initial_centroids data : List (List F)) (k d : Nat) (max_iterations : Int) (epsilon : F)
    (hk : 1 ≤ k) (hinit : initial_centroids.length = k) (hmax : 1 ≤ max_iterations)
    (hd : 1 ≤ d) (hdata : ∀ p ∈ data, p.length = d)
    (hcdim : ∀ v ∈ initial_centroids, v.length = d)
    (hne : ∀ (m : Nat) (c : List (List F)) (cl : List (List (List F))),
      (m : Int) < max_iterations →
      step_iterate sqrt stale data k initial_centroids m = some c →
      (∀ (t : Nat) (A B : List (List F)), 1 ≤ t → t ≤ m →
        step_iterate sqrt stale data k initial_centroids (t - 1) = some A →
        step_iterate sqrt stale data k initial_centroids t = some B →
        centroids_converged sqrt A B epsilon = false) →
      assign_clusters sqrt data c (List.replicate k []) k = some cl → ∀ x ∈ cl, x ≠ []) :
    ∃ st, fit_run sqrt stale initial_centroids data k max_iterations epsilon = some st ∧
      fit sqrt stale initial_centroids data k max_iterations epsilon = some st.centroids ∧
      1 ≤ st.passes ∧ (st.passes : Int) ≤ max_iterations ∧
      st.centroids.length = k ∧ ∀ v ∈ st.centroids, v.length = d := by
  obtain ⟨st, hst, hp1, hp2, hp3, hp4⟩ :=
    fit_loop_shape sqrt stale data k d epsilon initial_centroids max_iterations.toNat hk hd
      hdata (fun m c cl hm => hne m c cl (by omega)) max_iterations.toNat 0 initial_centroids
      (List.replicate k []) (by omega) (by simp) rfl
      (fun t A B h1 h2 _ _ => by omega) hinit hcdim
  refine ⟨st, hst, ?_, ?_, by omega, hp3, hp4⟩
  · simp only [fit, fit_run] at hst ⊢
    rw [hst]; rfl
  · have := hp2 (by omega)
    omega

/-- C6 on the points `0, 3, 10, 11, 11, 11`, the centroids `0, 5, 16`,
`epsilon = 100` and a budget of two passes: the loop stops after its first
pass, and the second pass, which would leave a cluster empty, is not run. -/
theorem fit_bound_and_shape_witness :
    ∃ st, fit_run Real.sqrt (fun _ _ => 0) [[0], [5], [16]]
        [[0], [3], [10], [11], [11], [11]] 3 2 100 = some st ∧
      fit Real.sqrt (fun _ _ => 0) [[0], [5], [16]]
        [[0], [3], [10], [11], [11], [11]] 3 2 100 = some st.centroids ∧
      1 ≤ st.passes ∧ (st.passes : Int) ≤ 2 ∧
      st.centroids.length = 3 ∧ ∀ v ∈ st.centroids, v.length = 1 :=
  fit_bound_and_shape Real.sqrt (fun _ _ => 0) [[0], [5], [16]]
    [[0], [3], [10], [11], [11], [11]] 3 1 2 100
    (by norm_num) rfl (by norm_num) (by norm_num) (by simp) (by simp)
    (by
      intro m c cl hm hc hrun hcl
      have hm2 : m = 0 ∨ m = 1 := by omega
      rcases hm2 with rfl | rfl
      · simp only [step_iterate, Option.some.injEq] at hc
        subst hc
        rw [shape_example_assign] at hcl
        simp only [Option.some.injEq] at hcl
        subst hcl
        simp
      · have hno := hrun 1 [[0], [5], [16]] [[0], [13 / 2], [11]] (le_refl 1) (le_refl 1)
          rfl shape_example_first_pass.1
        rw [shape_example_first_pass.2] at hno
        exact absurd hno (by simp))

/-- C7 (partition).  For every dataset of non-empty points, every `k ≥ 1`,
every centroid chain of at least `k` vectors and every cluster array of at
least `k` slots, `assign_clusters` succeeds and the first `k` slots of the
array partition the dataset: their member counts add up to the number of
points and their concatenation is a permutation of the dataset. -/
theorem assign_clusters_partition (sqrt : F → F) (data centroids : List (List F))
    (clusters : List (List (List F))) (k : Nat) (hk : 1 ≤ k) (hc : k ≤ centroids.length)
    (hcl : k ≤ clusters.length) (hne : ∀ p ∈ data, p ≠ []) :
    ∃ out, assign_clusters sqrt data centroids clusters k = some out ∧
      (out.take k).length = k ∧
      ((out.take k).map List.length).sum = data.length ∧
      List.Perm (out.take k).flatten data := by
  obtain ⟨out, hout, hlen, _, _, hperm⟩ :=
    assign_clusters_spec sqrt data centroids clusters k hk hc hcl hne
  refine ⟨out, hout, ?_, ?_, hperm⟩
  · rw [List.length_take, hlen]; omega
  · rw [← List.length_flatten]
    exact hperm.length_eq

/-- C7 on the points `0, 4, 1` and the centroids `0, 4`. -/
theorem assign_clusters_partition_witness :
    ∃ out, assign_clusters Real.sqrt [[0], [4], [1]] [[0], [4]] [[], []] 2 = some out ∧
      (out.take 2).length = 2 ∧
      ((out.take 2).map List.length).sum = [[(0 : ℝ)], [4], [1]].length ∧
      List.Perm (out.take 2).flatten [[(0 : ℝ)], [4], [1]] :=
  assign_clusters_partition Real.sqrt [[0], [4], [1]] [[0], [4]] [[], []] 2
    (by decide) (by decide) (by decide) (by simp)

/-- C8 (distance metric).  With `double` read as `ℝ`: for two coordinate chains
of the same length `d`, `euclidean_distance` is the square root of the sum
over `i < d` of `(a_i - b_i)^2`, and it is non-negative. -/
theorem euclidean_distance_eq_sqrt_sum (a b : List ℝ) (d : Nat) (ha : a.length = d)
    (hb : b.length = d) :
    euclidean_distance Real.sqrt a b
        = Real.sqrt (∑ i in Finset.range d, (a.getD i 0 - b.getD i 0) ^ 2) ∧
      0 ≤ euclidean_distance Real.sqrt a b := by
  constructor
  · unfold euclidean_distance
    rw [euclidean_distance_sum_eq, zero_add, ha, hb, min_self]
  · exact Real.sqrt_nonneg _

/-- C8 on the chains `(3, 0)` and `(0, 4)`. -/
theorem euclidean_distance_eq_sqrt_sum_witness :
    euclidean_distance Real.sqrt [3, 0] [0, 4]
        = Real.sqrt (∑ i in Finset.range 2, (([3, 0] : List ℝ).getD i 0 - ([0, 4] : List ℝ).getD i 0) ^ 2) ∧
      0 ≤ euclidean_distance Real.sqrt [3, 0] [0, 4] :=
  euclidean_distance_eq_sqrt_sum [3, 0] [0, 4] 2 rfl rfl

/-- C9 at a failing input (points `0` and `2`, one centroid at their mean `1`,
the unwritten node holding `3`): the objective is `2` before the pass and
`13/2` after it.  With that node holding `0` the objective never increases,
see `objective_step_le_of_stale_zero`. -/
theorem objective_increases_with_stale :
    objective Real.sqrt [[0], [2]] 1 [[1]] = some 2 ∧
      step Real.sqrt (fun _ => 3) [[0], [2]] 1 [[1]] = some [[5 / 2]] ∧
      objective Real.sqrt [[0], [2]] 1 [[5 / 2]] = some (13 / 2) ∧
      (2 : ℝ) < 13 / 2 := by
  refine ⟨?_, ?_, ?_, by norm_num⟩
  · norm_num [objective, cluster_cost, assign_clusters, assign_clusters_reset,
      assign_clusters_loop, closest_index, assign_clusters_scan, euclidean_distance_one,
      copy_cords, List.range_succ]
  · norm_num [step, calculate_centroids, calculate_centroids_loop, calculate_centroids_one,
      calculate_centroids_sum, init_empty_cord, get_cord_length, divide_cord_values_by_number,
      add_one_cord_values_to_another_cord, assign_clusters, assign_clusters_reset,
      assign_clusters_loop, closest_index, assign_clusters_scan, euclidean_distance_one,
      copy_cords, List.range_succ]
  · norm_num [objective, cluster_cost, assign_clusters, assign_clusters_reset,
      assign_clusters_loop, closest_index, assign_clusters_scan, euclidean_distance_one,
      copy_cords, List.range_succ]

/-- C10 fails as stated, in two ways.  A run that uses up its budget: points
`0, 2, 4, 12`, `k = 2`, initial centroids `0` and `2`, `max_iterations = 1`,
`epsilon = 0` (unwritten nodes holding `0`); `fit` returns the centroids `0`
and `6`, a second run from them moves them to `1` and `8` in its first pass,
which does not pass `centroids_converged`, and with a budget of two passes it
uses both.  A run that stops through the convergence test with `epsilon > 0`:
points `0, 70, 100`, `k = 2`, initial centroids `35` and `106`, `epsilon = 10`,
five passes allowed; `fit` stops in its first pass with the centroids `35` and
`100` (moved by `0` and `6`), and the first pass of a second run from them
moves them to `0` and `85`, by more than `10`. -/
theorem fit_result_not_fixed_point :
    (fit Real.sqrt (fun _ _ => 0) [[0], [2]] [[0], [2], [4], [12]] 2 1 0 = some [[0], [6]] ∧
      step Real.sqrt (fun _ => 0) [[0], [2], [4], [12]] 2 [[0], [6]] = some [[1], [8]] ∧
      centroids_converged Real.sqrt [[0], [6]] [[1], [8]] 0 = false ∧
      (fit_run Real.sqrt (fun _ _ => 0) [[0], [6]] [[0], [2], [4], [12]] 2 2 0).map
        FitState.passes = some 2) ∧
    (fit_run Real.sqrt (fun _ _ => 0) [[35], [106]] [[0], [70], [100]] 2 5 10
        = some ⟨[[35], [100]], [[[70], [0]], [[100]]], 1⟩ ∧
      step Real.sqrt (fun _ => 0) [[0], [70], [100]] 2 [[35], [100]] = some [[0], [85]] ∧
      centroids_converged Real.sqrt [[35], [100]] [[0], [85]] 10 = false) := by
  refine ⟨⟨?_, ?_, ?_, ?_⟩, ?_, ?_, ?_⟩
  · norm_num [fit, fit_run, fit_loop, centroids_converged,
      calculate_centroids, calculate_centroids_loop, calculate_centroids_one,
      calculate_centroids_sum, init_empty_cord, get_cord_length, divide_cord_values_by_number,
      add_one_cord_values_to_another_cord, assign_clusters, assign_clusters_reset,
      assign_clusters_loop, closest_index, assign_clusters_scan, euclidean_distance_one,
      copy_cords, List.range_succ, List.replicate]
  · norm_num [step, calculate_centroids, calculate_centroids_loop, calculate_centroids_one,
      calculate_centroids_sum, init_empty_cord, get_cord_length, divide_cord_values_by_number,
      add_one_cord_values_to_another_cord, assign_clusters, assign_clusters_reset,
      assign_clusters_loop, closest_index, assign_clusters_scan, euclidean_distance_one,
      copy_cords, List.range_succ, List.replicate]
  · norm_num [centroids_converged, euclidean_distance_one]
  · norm_num [fit_run, fit_loop, centroids_converged,
      calculate_centroids, calculate_centroids_loop, calculate_centroids_one,
      calculate_centroids_sum, init_empty_cord, get_cord_length, divide_cord_values_by_number,
      add_one_cord_values_to_another_cord, assign_clusters, assign_clusters_reset,
      assign_clusters_loop, closest_index, assign_clusters_scan, euclidean_distance_one,
      copy_cords, List.range_succ, List.replicate]
  · norm_num [fit_run, fit_loop, centroids_converged,
      calculate_centroids, calculate_centroids_loop, calculate_centroids_one,
      calculate_centroids_sum, init_empty_cord, get_cord_length, divide_cord_values_by_number,
      add_one_cord_values_to_another_cord, assign_clusters, assign_clusters_reset,
      assign_clusters_loop, closest_index, assign_clusters_scan, euclidean_distance_one,
      copy_cords, List.range_succ, List.replicate]
  · norm_num [step, calculate_centroids, calculate_centroids_loop, calculate_centroids_one,
      calculate_centroids_sum, init_empty_cord, get_cord_length, divide_cord_values_by_number,
      add_one_cord_values_to_another_cord, assign_clusters, assign_clusters_reset,
      assign_clusters_loop, closest_index, assign_clusters_scan, euclidean_distance_one,
      copy_cords, List.range_succ, List.replicate]
  · norm_num [centroids_converged, euclidean_distance_one]

/-- With `double` read as `ℝ`: when one pass from `R` gives `R` again, the loop
of `fit` started from `R` with `epsilon ≥ 0` and a budget of at least one pass
runs exactly one pass and returns `R`. -/
theorem fit_from_fixed_point (stale : Nat → Nat → ℝ) (R data : List (List ℝ)) (k : Nat)
    (max_iterations : Int) (epsilon : ℝ) (hmax : 1 ≤ max_iterations) (heps : 0 ≤ epsilon)
    (hfix : step Real.sqrt (stale 0) data k R = some R) :
    centroids_converged Real.sqrt R R epsilon = true ∧
      fit Real.sqrt stale R data k max_iterations epsilon = some R ∧
      (fit_run Real.sqrt stale R data k max_iterations epsilon).map FitState.passes
        = some 1 := by
  have hconv := centroids_converged_self epsilon heps R
  have h1 : step_iterate Real.sqrt stale data k R 1 = some R := by
    simp only [step_iterate, hfix]
  obtain ⟨cl2, h⟩ := fit_loop_stop Real.sqrt stale data k epsilon R
    max_iterations.toNat 0 R (List.replicate k []) (by simp) rfl 1 R R
    (by omega) (by omega) rfl h1
    (fun m A B h1 h2 _ _ => by omega)
    (Or.inl hconv)
  refine ⟨hconv, ?_, ?_⟩
  · unfold fit fit_run
    rw [h]; rfl
  · unfold fit_run
    rw [h]; rfl

/-! ## More lemmas: failure, the reference scan, the scenarios -/

/-- The convergence test answers `true` when every pair of centroids at the
same position is within `epsilon`. -/
theorem centroids_converged_of_forall (sqrt : F → F) (epsilon : F) :
    ∀ (old new : List (List F)),
      (∀ (i : Nat) (o n : List F), old[i]? = some o → new[i]? = some n →
        euclidean_distance sqrt o n ≤ epsilon) →
      centroids_converged sqrt old new epsilon = true
  | [], _, _ => by simp [centroids_converged]
  | _ :: _, [], _ => by simp [centroids_converged]
  | o :: os, n :: ns, h => by
    have h0 : euclidean_distance sqrt o n ≤ epsilon := h 0 o n (by simp) (by simp)
    rw [centroids_converged, if_neg (not_lt.mpr h0)]
    exact centroids_converged_of_forall sqrt epsilon os ns
      (fun i o2 n2 ho hn => h (i + 1) o2 n2 (by simpa using ho) (by simpa using hn))

/-- When the dataset loop succeeds, every point was non-empty and got an index
inside the array. -/
theorem assign_clusters_loop_some (sqrt : F → F) (centroids : List (List F)) (k : Nat) :
    ∀ (data : List (List F)) (clusters out : List (List (List F))),
      assign_clusters_loop sqrt centroids k data clusters = some out →
      (∀ p ∈ data, p ≠ []) ∧
      (∀ p ∈ data, ∃ j, closest_index sqrt centroids k p = some j ∧ j < clusters.length)
  | [], _, _, _ => by simp
  | p :: data, clusters, out, h => by
    simp only [assign_clusters_loop] at h
    split at h
    · exact absurd h (by simp)
    · rename_i m hm
      split at h
      · exact absurd h (by simp)
      · rename_i cords hcords
        split at h
        · exact absurd h (by simp)
        · rename_i old hold
          obtain ⟨h1, h2⟩ := assign_clusters_loop_some sqrt centroids k data _ out h
          have hp : p ≠ [] := by
            intro h0
            rw [h0] at hcords
            simp [copy_cords] at hcords
          have hml : m < clusters.length := by
            by_contra hcon
            rw [List.getElem?_eq_none (by omega)] at hold
            exact absurd hold (by simp)
          constructor
          · intro q hq
            rcases List.mem_cons.mp hq with rfl | hq
            · exact hp
            · exact h1 q hq
          · intro q hq
            rcases List.mem_cons.mp hq with rfl | hq
            · exact ⟨m, hm, hml⟩
            · obtain ⟨j, hj, hjl⟩ := h2 q hq
              exact ⟨j, hj, by simpa using hjl⟩

/-- Whenever `assign_clusters` succeeds on an array of at least `k` slots, slot
`j < k` holds the points whose closest index is `j`, the latest one first. -/
theorem assign_clusters_some_spec (sqrt : F → F) (data centroids : List (List F))
    (clusters out : List (List (List F))) (k : Nat)
    (h : assign_clusters sqrt data centroids clusters k = some out) :
    k ≤ clusters.length ∧ ∀ j, j < k → out[j]? = some
      (data.filter (fun p => decide (closest_index sqrt centroids k p = some j))).reverse := by
  by_cases hk : k ≤ clusters.length
  · refine ⟨hk, ?_⟩
    unfold assign_clusters at h
    rw [assign_clusters_reset_eq clusters k hk] at h
    have h : assign_clusters_loop sqrt centroids k data
        (List.replicate k [] ++ clusters.drop k) = some out := h
    obtain ⟨h1, h2⟩ := assign_clusters_loop_some sqrt centroids k data _ out h
    obtain ⟨out2, hout2, _, hidx, _⟩ :=
      assign_clusters_loop_spec sqrt centroids k data _ h1 h2
    rw [h] at hout2
    simp only [Option.some.injEq] at hout2
    subst hout2
    intro j hj
    rw [hidx j]
    have : (List.replicate k ([] : List (List F)) ++ clusters.drop k)[j]? = some [] := by
      rw [List.getElem?_append_left (by simpa using hj)]
      simp [hj]
    rw [this]
    simp
  · unfold assign_clusters at h
    rw [assign_clusters_reset_none clusters k (by omega)] at h
    exact absurd h (by simp)

/-- Once the running minimum is not the sentinel, and no distance ever equals
the sentinel, the scan of the code is the scan that compares by strict
less-than only: the sentinel test never fires again. -/
theorem assign_clusters_scan_eq_reference (sqrt : F → F) (hs : ∀ x, sqrt x ≠ -1)
    (p : List F) :
    ∀ (fuel i : Nat) (cs : List (List F)) (md : F) (mi : Nat), md ≠ -1 →
      assign_clusters_scan sqrt p fuel i cs md mi = reference_scan sqrt p fuel i cs md mi
  | 0, _, _, _, _, _ => rfl
  | _ + 1, _, [], _, _, _ => rfl
  | fuel + 1, i, c :: cs, md, mi, hmd => by
    have hd : euclidean_distance sqrt p c ≠ -1 := hs _
    simp only [assign_clusters_scan, reference_scan, hmd, or_false]
    split
    · exact assign_clusters_scan_eq_reference sqrt hs p fuel (i + 1) cs _ i hd
    · exact assign_clusters_scan_eq_reference sqrt hs p fuel (i + 1) cs md mi hmd

/-- The cluster loop of `calculate_centroids` fails when one of the clusters it
visits is empty. -/
theorem calculate_centroids_loop_none (stale : Nat → F) (clusters : List (List (List F))) :
    ∀ (fuel i : Nat) (acc : List (List F)),
      (∃ j, i ≤ j ∧ j < i + fuel ∧ clusters[j]? = some []) →
      calculate_centroids_loop stale clusters fuel i acc = none
  | 0, i, acc, h => by
    obtain ⟨j, h1, h2, _⟩ := h
    omega
  | fuel + 1, i, acc, h => by
    obtain ⟨j, h1, h2, h3⟩ := h
    simp only [calculate_centroids_loop]
    cases hci : clusters[i]? with
    | none => rfl
    | some cluster =>
      cases cluster with
      | nil => simp [calculate_centroids_one]
      | cons first rest =>
        have hji : j ≠ i := by
          intro hji
          subst hji
          rw [hci] at h3
          simp at h3
        simp only [calculate_centroids_one]
        exact calculate_centroids_loop_none stale clusters fuel (i + 1) _
          ⟨j, by omega, by omega, h3⟩

/-- On `ℝ` two distances compare as the sums under their square roots. -/
theorem euclidean_distance_lt_iff (p c1 c0 : List ℝ) :
    euclidean_distance Real.sqrt p c1 < euclidean_distance Real.sqrt p c0 ↔
      euclidean_distance_sum p c1 0 < euclidean_distance_sum p c0 0 := by
  unfold euclidean_distance
  exact Real.sqrt_lt_sqrt_iff (euclidean_distance_sum_nonneg p c1)

/-- On `ℝ` a distance exceeds `epsilon ≥ 0` when the sum under its square root
exceeds `epsilon ^ 2`. -/
theorem euclidean_distance_gt_iff (o n : List ℝ) (epsilon : ℝ) (heps : 0 ≤ epsilon) :
    euclidean_distance Real.sqrt o n > epsilon ↔
      epsilon ^ 2 < euclidean_distance_sum o n 0 := by
  unfold euclidean_distance
  exact Real.lt_sqrt heps

/-- With two centroids the scan picks the second one exactly when it is
strictly closer. -/
theorem closest_index_two (c0 c1 p : List ℝ) :
    closest_index Real.sqrt [c0, c1] 2 p
      = if euclidean_distance_sum p c1 0 < euclidean_distance_sum p c0 0
        then some 1 else some 0 := by
  have h0 : euclidean_distance Real.sqrt p c0 ≠ -1 := by
    intro h
    have := Real.sqrt_nonneg (euclidean_distance_sum p c0 0)
    unfold euclidean_distance at h
    rw [h] at this
    linarith
  simp only [closest_index, assign_clusters_scan, or_true, if_true, h0, or_false, zero_add,
    euclidean_distance_lt_iff]

/-- Resetting a fresh array of two slots. -/
theorem assign_clusters_reset_two :
    assign_clusters_reset (List.replicate 2 ([] : List (List ℝ))) 2 = some [[], []] := by
  rw [assign_clusters_reset_eq _ 2 (by simp)]
  rfl

/-- Scenario 1: the assignment against the initial centroids. -/
theorem scenario_assign_initial :
    assign_clusters Real.sqrt [[0, 0], [0, 2], [10, 0], [10, 2]] [[0, 0], [10, 0]]
      (List.replicate 2 []) 2 = some [[[0, 2], [0, 0]], [[10, 2], [10, 0]]] := by
  simp only [assign_clusters, assign_clusters_reset_two, assign_clusters_loop,
    closest_index_two, euclidean_distance_sum, copy_cords]
  norm_num

/-- Scenario 1: the assignment against the centroids `(0,1)`, `(10,1)`. -/
theorem scenario_assign_mean :
    assign_clusters Real.sqrt [[0, 0], [0, 2], [10, 0], [10, 2]] [[0, 1], [10, 1]]
      (List.replicate 2 []) 2 = some [[[0, 2], [0, 0]], [[10, 2], [10, 0]]] := by
  simp only [assign_clusters, assign_clusters_reset_two, assign_clusters_loop,
    closest_index_two, euclidean_distance_sum, copy_cords]
  norm_num

/-- Scenario 1: the assignment against the centroids `(0,3/2)`, `(10,3/2)`. -/
theorem scenario_assign_shifted :
    assign_clusters Real.sqrt [[0, 0], [0, 2], [10, 0], [10, 2]] [[0, 3 / 2], [10, 3 / 2]]
      (List.replicate 2 []) 2 = some [[[0, 2], [0, 0]], [[10, 2], [10, 0]]] := by
  simp only [assign_clusters, assign_clusters_reset_two, assign_clusters_loop,
    closest_index_two, euclidean_distance_sum, copy_cords]
  norm_num

/-- Scenario 1: the centroids of the two clusters, for an unwritten node
holding `s`. -/
theorem scenario_centroids (s : ℝ) :
    calculate_centroids (fun _ => s) [[[0, 2], [0, 0]], [[10, 2], [10, 0]]] 2
      = some [[0, (s + 2) / 2], [10, (s + 2) / 2]] := by
  norm_num [calculate_centroids, calculate_centroids_loop, calculate_centroids_one,
    calculate_centroids_sum, init_empty_cord, get_cord_length, divide_cord_values_by_number,
    add_one_cord_values_to_another_cord]

/-- Scenario 1 with the unwritten nodes holding `0`: two passes reach the
centroids `(0,1)`, `(10,1)` and leave them there. -/
theorem scenario_iterate_stale_zero :
    step_iterate Real.sqrt (fun _ _ => 0) [[0, 0], [0, 2], [10, 0], [10, 2]] 2
        [[0, 0], [10, 0]] 1 = some [[0, 1], [10, 1]] ∧
      step_iterate Real.sqrt (fun _ _ => 0) [[0, 0], [0, 2], [10, 0], [10, 2]] 2
        [[0, 0], [10, 0]] 2 = some [[0, 1], [10, 1]] := by
  have h1 : step Real.sqrt (fun _ => 0) [[0, 0], [0, 2], [10, 0], [10, 2]] 2
      [[0, 0], [10, 0]] = some [[0, 1], [10, 1]] := by
    simp only [step, scenario_assign_initial, scenario_centroids]
    norm_num
  have h2 : step Real.sqrt (fun _ => 0) [[0, 0], [0, 2], [10, 0], [10, 2]] 2
      [[0, 1], [10, 1]] = some [[0, 1], [10, 1]] := by
    simp only [step, scenario_assign_mean, scenario_centroids]
    norm_num
  exact ⟨by simp only [step_iterate, h1], by simp only [step_iterate, h1, h2]⟩

/-- Scenario 1 with the unwritten nodes holding `1`: two passes reach the
centroids `(0,3/2)`, `(10,3/2)` and leave them there. -/
theorem scenario_iterate_stale_one :
    step_iterate Real.sqrt (fun _ _ => 1) [[0, 0], [0, 2], [10, 0], [10, 2]] 2
        [[0, 0], [10, 0]] 1 = some [[0, 3 / 2], [10, 3 / 2]] ∧
      step_iterate Real.sqrt (fun _ _ => 1) [[0, 0], [0, 2], [10, 0], [10, 2]] 2
        [[0, 0], [10, 0]] 2 = some [[0, 3 / 2], [10, 3 / 2]] := by
  have h1 : step Real.sqrt (fun _ => 1) [[0, 0], [0, 2], [10, 0], [10, 2]] 2
      [[0, 0], [10, 0]] = some [[0, 3 / 2], [10, 3 / 2]] := by
    simp only [step, scenario_assign_initial, scenario_centroids]
    norm_num
  have h2 : step Real.sqrt (fun _ => 1) [[0, 0], [0, 2], [10, 0], [10, 2]] 2
      [[0, 3 / 2], [10, 3 / 2]] = some [[0, 3 / 2], [10, 3 / 2]] := by
    simp only [step, scenario_assign_shifted, scenario_centroids]
    norm_num
  exact ⟨by simp only [step_iterate, h1], by simp only [step_iterate, h1, h2]⟩

/-- The first centroid of scenario 1 moves by more than `0.0001` in the first
pass, whether it lands on `(0,1)` or on `(0,3/2)`. -/
theorem scenario_not_converged (y : ℝ) (hy : 1 ≤ y) :
    centroids_converged Real.sqrt [[0, 0], [10, 0]] [[0, y], [10, y]] (1 / 10000)
      = false := by
  have h : euclidean_distance Real.sqrt [0, 0] [0, y] > 1 / 10000 := by
    rw [euclidean_distance_gt_iff _ _ _ (by norm_num)]
    simp only [euclidean_distance_sum]
    nlinarith
  simp only [centroids_converged, h, if_true]

/-- Scenario 1 when the unwritten nodes hold `0`: the engine returns `(0,1)`,
`(10,1)` after two passes. -/
theorem scenario_one_of_stale_zero :
    fit Real.sqrt (fun _ _ => 0) [[0, 0], [10, 0]] [[0, 0], [0, 2], [10, 0], [10, 2]] 2 10
        (1 / 10000) = some [[0, 1], [10, 1]] ∧
      (fit_run Real.sqrt (fun _ _ => 0) [[0, 0], [10, 0]]
        [[0, 0], [0, 2], [10, 0], [10, 2]] 2 10 (1 / 10000)).map FitState.passes = some 2 := by
  obtain ⟨cl2, h⟩ := fit_loop_stop Real.sqrt (fun _ _ => 0)
    [[0, 0], [0, 2], [10, 0], [10, 2]] 2 (1 / 10000) [[0, 0], [10, 0]]
    (10 : Int).toNat 0 [[0, 0], [10, 0]] (List.replicate 2 []) (by simp) rfl 2
    [[0, 1], [10, 1]] [[0, 1], [10, 1]] (by norm_num) (by norm_num)
    scenario_iterate_stale_zero.1 scenario_iterate_stale_zero.2
    (by
      intro m A B h1 h2 hA hB
      have hm : m = 1 := by omega
      subst hm
      rw [scenario_iterate_stale_zero.1] at hB
      simp only [step_iterate, Nat.sub_self, Option.some.injEq] at hA hB
      subst hA hB
      exact scenario_not_converged 1 (le_refl 1))
    (Or.inl (centroids_converged_self _ (by norm_num) _))
  unfold fit fit_run
  rw [h]
  exact ⟨rfl, rfl⟩

/-- With one centroid slot every non-empty point goes to cluster `0`. -/
theorem assign_clusters_single_point (sqrt : F → F) (p c : List F) (cs : List (List F))
    (hp : p ≠ []) :
    assign_clusters sqrt [p] (c :: cs) [[]] 1 = some [[p]] := by
  obtain ⟨a, t, rfl⟩ := List.exists_cons_of_ne_nil hp
  have hreset : assign_clusters_reset ([[]] : List (List (List F))) 1 = some [[]] := by
    rw [assign_clusters_reset_eq _ 1 (by simp)]
    rfl
  simp [assign_clusters, hreset, assign_clusters_loop, closest_index, assign_clusters_scan,
    copy_cords]

/-- Adding a chain into an accumulator of zeros of the same length gives the
chain back. -/
theorem add_one_cord_values_to_zeros :
    ∀ (p : List F), add_one_cord_values_to_another_cord p (List.replicate p.length 0) = p
  | [] => rfl
  | a :: p => by
    simp [List.replicate_succ, add_one_cord_values_to_another_cord,
      add_one_cord_values_to_zeros p]

/-- With the unwritten node holding `0`, the centroid of a cluster with the
single member `p` is `p`. -/
theorem calculate_centroids_one_single (p : List F) (hp : p ≠ []) :
    calculate_centroids_one 0 [p] = some p := by
  obtain ⟨n, hn⟩ : ∃ n, p.length = n + 1 :=
    ⟨p.length - 1, by have := List.length_pos.mpr hp; omega⟩
  have hinit : init_empty_cord (0 : F) (get_cord_length p) = List.replicate p.length 0 := by
    simp only [init_empty_cord, get_cord_length, hn]
    have : ((((n + 1 : Nat) : Int)) - 1).toNat = n := by omega
    rw [this, List.replicate_succ']
  simp [calculate_centroids_one, calculate_centroids_sum, hinit, add_one_cord_values_to_zeros,
    divide_cord_values_by_number]

/-- With the unwritten node holding `0`, one pass on a dataset of one point
with `k = 1` gives that point, whatever the centroid was. -/
theorem step_single_point_of_stale_zero (sqrt : F → F) (p c : List F) (hp : p ≠ []) :
    step sqrt (fun _ => 0) [p] 1 [c] = some [p] := by
  simp [step, assign_clusters_single_point sqrt p c [] hp, calculate_centroids,
    calculate_centroids_loop, calculate_centroids_one_single p hp]

/-- Scenario 3 when the unwritten nodes hold `0` (with `double` read as `ℝ`):
for a dataset of one non-empty point `p`, `k = 1`, any initial centroid, any
`epsilon ≥ 0` and any `max_iterations ≥ 1`, the engine returns `p`. -/
theorem fit_single_point_of_stale_zero (p c : List ℝ) (hp : p ≠ []) (max_iterations : Int)
    (epsilon : ℝ) (hmax : 1 ≤ max_iterations) (heps : 0 ≤ epsilon) :
    fit Real.sqrt (fun _ _ => 0) [c] [p] 1 max_iterations epsilon = some [p] := by
  have h1 : step_iterate Real.sqrt (fun _ _ => 0) [p] 1 [c] 1 = some [p] := by
    simp only [step_iterate, step_single_point_of_stale_zero Real.sqrt p c hp]
  have h2 : step_iterate Real.sqrt (fun _ _ => 0) [p] 1 [c] 2 = some [p] := by
    simp only [step_iterate, step_single_point_of_stale_zero Real.sqrt p c hp,
      step_single_point_of_stale_zero Real.sqrt p p hp]
  have hfin : ∀ j cl2, fit_loop Real.sqrt (fun _ _ => 0) [p] 1 epsilon max_iterations.toNat 0
      [c] (List.replicate 1 []) = some ⟨[p], cl2, j⟩ →
      fit Real.sqrt (fun _ _ => 0) [c] [p] 1 max_iterations epsilon = some [p] := by
    intro j cl2 h
    unfold fit fit_run
    rw [h]; rfl
  by_cases hconv : centroids_converged Real.sqrt [c] [p] epsilon = true
  · obtain ⟨cl2, h⟩ := fit_loop_stop Real.sqrt (fun _ _ => 0) [p] 1 epsilon [c]
      max_iterations.toNat 0 [c] (List.replicate 1 []) (by simp) rfl 1 [c] [p]
      (by omega) (by omega) rfl h1 (fun m A B h1 h2 _ _ => by omega) (Or.inl hconv)
    exact hfin 1 cl2 h
  · by_cases hone : max_iterations = 1
    · obtain ⟨cl2, h⟩ := fit_loop_stop Real.sqrt (fun _ _ => 0) [p] 1 epsilon [c]
        max_iterations.toNat 0 [c] (List.replicate 1 []) (by simp) rfl 1 [c] [p]
        (by omega) (by omega) rfl h1 (fun m A B h1 h2 _ _ => by omega) (Or.inr (by omega))
      exact hfin 1 cl2 h
    · obtain ⟨cl2, h⟩ := fit_loop_stop Real.sqrt (fun _ _ => 0) [p] 1 epsilon [c]
        max_iterations.toNat 0 [c] (List.replicate 1 []) (by simp) rfl 2 [p] [p]
        (by omega) (by omega) h1 h2
        (fun m A B h1' h2' hA hB => by
          have hm : m = 1 := by omega
          subst hm
          rw [h1] at hB
          simp only [step_iterate, Nat.sub_self, Option.some.injEq] at hA hB
          subst hA hB
          simpa using hconv)
        (Or.inl (centroids_converged_self epsilon heps [p]))
      exact hfin 2 cl2 h

/-- On `ℝ` two chains of the same length at distance `0` are equal. -/
theorem eq_of_euclidean_distance_eq_zero (p c : List ℝ) (hlen : p.length = c.length)
    (h : euclidean_distance Real.sqrt p c = 0) : p = c := by
  unfold euclidean_distance at h
  have hsum := (Real.sqrt_eq_zero (euclidean_distance_sum_nonneg p c)).mp h
  rw [euclidean_distance_sum_eq, zero_add, ← hlen, min_self] at hsum
  have hterm := (Finset.sum_eq_zero_iff_of_nonneg (fun i _ => sq_nonneg _)).mp hsum
  apply List.ext_getElem hlen
  intro t h1 h2
  have ht := hterm t (Finset.mem_range.mpr h1)
  rw [List.getD_eq_getElem _ _ h1, List.getD_eq_getElem _ _ h2] at ht
  have := pow_eq_zero_iff (two_ne_zero) |>.mp ht
  linarith

/-- When the centroids are the points themselves, all of one dimension and
pairwise distinct, the index picked for point `i` is `i`. -/
theorem closest_index_self (data : List (List ℝ)) (d : Nat)
    (hdim : ∀ p ∈ data, p.length = d) (hnodup : data.Nodup) (i : Nat)
    (hi : i < data.length) :
    closest_index Real.sqrt data data.length data[i] = some i := by
  obtain ⟨j, hj, hjk, _, hall⟩ := closest_index_spec Real.sqrt Real.sqrt_nonneg data
    data.length data[i] (by omega) (le_refl _)
  have h0 : euclidean_distance Real.sqrt data[i] (data.getD i []) = 0 := by
    rw [List.getD_eq_getElem _ _ hi]
    unfold euclidean_distance
    rw [euclidean_distance_sum_self, Real.sqrt_zero]
  have hle := hall i hi
  rw [h0, List.getD_eq_getElem _ _ hjk] at hle
  have hz : euclidean_distance Real.sqrt data[i] data[j] = 0 :=
    le_antisymm hle (Real.sqrt_nonneg _)
  have heq : data[i] = data[j] :=
    eq_of_euclidean_distance_eq_zero _ _
      (by rw [hdim _ (List.getElem_mem hi), hdim _ (List.getElem_mem hjk)]) hz
  have hij : i = j := (List.Nodup.getElem_inj_iff hnodup).mp heq
  rw [hj, hij]

/-- In a list whose element at position `j` carries the index `off + j`, the
elements carrying the index `off + i` are just the one at position `i`. -/
theorem filter_index_singleton {α : Type} (idx : α → Option Nat) :
    ∀ (l : List α) (off : Nat),
      (∀ (j : Nat) (h : j < l.length), idx l[j] = some (off + j)) →
      ∀ (i : Nat) (h : i < l.length),
        l.filter (fun x => decide (idx x = some (off + i))) = [l[i]]
  | [], _, _, i, h => by simp at h
  | a :: t, off, hidx, i, h => by
    have ha : idx a = some off := by simpa using hidx 0 (by simp)
    have ht : ∀ (j : Nat) (h : j < t.length), idx t[j] = some (off + 1 + j) := by
      intro j hj
      have := hidx (j + 1) (by simpa using hj)
      simp only [List.getElem_cons_succ] at this
      rw [this]
      congr 1
      omega
    cases i with
    | zero =>
      have hnil : t.filter (fun x => decide (idx x = some off)) = [] := by
        rw [List.filter_eq_nil_iff]
        intro x hx
        obtain ⟨j, hj, rfl⟩ := List.getElem_of_mem hx
        rw [ht j hj]
        simp
        omega
      rw [Nat.add_zero, List.filter_cons, hnil]
      simp [ha]
    | succ i =>
      have hne : ¬ (idx a = some (off + 1 + i)) := by
        rw [ha]
        simp
        omega
      have ih := filter_index_singleton idx t (off + 1) ht i (by simpa using h)
      have hrw : off + (i + 1) = off + 1 + i := by omega
      rw [hrw, List.filter_cons]
      simp only [hne, decide_False, Bool.false_eq_true, if_false, List.getElem_cons_succ]
      exact ih

/-! ## The claims, continued -/

/-- C11 at a failing input (scenario 1 with the unwritten nodes holding `1`):
the engine still stops in the second pass, but it returns `(0,3/2)`,
`(10,3/2)` and not `(0,1)`, `(10,1)`. -/
theorem scenario_one_with_stale :
    fit Real.sqrt (fun _ _ => 1) [[0, 0], [10, 0]] [[0, 0], [0, 2], [10, 0], [10, 2]] 2 10
        (1 / 10000) = some [[0, 3 / 2], [10, 3 / 2]] ∧
      (fit_run Real.sqrt (fun _ _ => 1) [[0, 0], [10, 0]]
        [[0, 0], [0, 2], [10, 0], [10, 2]] 2 10 (1 / 10000)).map FitState.passes = some 2 ∧
      ([[0, 3 / 2], [10, 3 / 2]] : List (List ℝ)) ≠ [[0, 1], [10, 1]] := by
  obtain ⟨cl2, h⟩ := fit_loop_stop Real.sqrt (fun _ _ => 1)
    [[0, 0], [0, 2], [10, 0], [10, 2]] 2 (1 / 10000) [[0, 0], [10, 0]]
    (10 : Int).toNat 0 [[0, 0], [10, 0]] (List.replicate 2 []) (by simp) rfl 2
    [[0, 3 / 2], [10, 3 / 2]] [[0, 3 / 2], [10, 3 / 2]] (by norm_num) (by norm_num)
    scenario_iterate_stale_one.1 scenario_iterate_stale_one.2
    (by
      intro m A B h1 h2 hA hB
      have hm : m = 1 := by omega
      subst hm
      rw [scenario_iterate_stale_one.1] at hB
      simp only [step_iterate, Nat.sub_self, Option.some.injEq] at hA hB
      subst hA hB
      exact scenario_not_converged (3 / 2) (by norm_num))
    (Or.inl (centroids_converged_self _ (by norm_num) _))
  refine ⟨?_, ?_, by norm_num⟩
  · unfold fit fit_run
    rw [h]; rfl
  · unfold fit_run
    rw [h]; rfl

/-- C12 fails as stated.  Two equal points `0, 0` with themselves as the two
initial centroids: both land in cluster `0`, cluster `1` stays empty and the
engine fails.  Two distinct points `0, 1` with the initial centroids `5, 6`:
the same happens. -/
theorem assign_not_singletons :
    assign_clusters Real.sqrt [[0], [0]] [[0], [0]] [[], []] 2 = some [[[0], [0]], []] ∧
      fit Real.sqrt (fun _ _ => 0) [[0], [0]] [[0], [0]] 2 1 0 = none ∧
      assign_clusters Real.sqrt [[0], [1]] [[5], [6]] [[], []] 2 = some [[[1], [0]], []] ∧
      fit Real.sqrt (fun _ _ => 0) [[5], [6]] [[0], [1]] 2 1 0 = none := by
  refine ⟨?_, ?_, ?_, ?_⟩
  · norm_num [assign_clusters, assign_clusters_reset, assign_clusters_loop, closest_index,
      assign_clusters_scan, euclidean_distance_one, copy_cords, List.range_succ]
  · norm_num [fit, fit_run, fit_loop, calculate_centroids, calculate_centroids_loop,
      calculate_centroids_one, calculate_centroids_sum, init_empty_cord, get_cord_length,
      divide_cord_values_by_number, add_one_cord_values_to_another_cord,
      assign_clusters, assign_clusters_reset, assign_clusters_loop, closest_index,
      assign_clusters_scan, euclidean_distance_one, copy_cords, List.range_succ]
  · norm_num [assign_clusters, assign_clusters_reset, assign_clusters_loop, closest_index,
      assign_clusters_scan, euclidean_distance_one, copy_cords, List.range_succ]
  · norm_num [fit, fit_run, fit_loop, calculate_centroids, calculate_centroids_loop,
      calculate_centroids_one, calculate_centroids_sum, init_empty_cord, get_cord_length,
      divide_cord_values_by_number, add_one_cord_values_to_another_cord,
      assign_clusters, assign_clusters_reset, assign_clusters_loop, closest_index,
      assign_clusters_scan, euclidean_distance_one, copy_cords, List.range_succ]

/-- C12, as the code has it.  With `double` read as `ℝ`: let the dataset hold
`n ≥ 1` pairwise distinct points of `d ≥ 1` coordinates each, let `k = n` and
let the centroids be the points themselves, in dataset order.  Then after the
assignment pass cluster `i` has exactly one member, point `i`; the
aggregation succeeds with `n` centroids of `d` coordinates, and centroid `i`
agrees with point `i` in every coordinate before the last. -/
theorem assign_singletons (stale : Nat → ℝ) (data : List (List ℝ))
    (clusters : List (List (List ℝ))) (d : Nat) (hn : 1 ≤ data.length) (hd : 1 ≤ d)
    (hdim : ∀ p ∈ data, p.length = d) (hnodup : data.Nodup)
    (hcl : clusters.length = data.length) :
    ∃ out new, assign_clusters Real.sqrt data data clusters data.length = some out ∧
      out.length = data.length ∧
      (∀ (i : Nat) (p : List ℝ), data[i]? = some p → out[i]? = some [p]) ∧
      calculate_centroids stale out data.length = some new ∧
      new.length = data.length ∧
      ∀ (i : Nat) (p c : List ℝ), data[i]? = some p → new[i]? = some c →
        c.length = d ∧ ∀ t, t + 1 < d → c.getD t 0 = p.getD t 0 := by
  have hpne : ∀ p ∈ data, p ≠ [] := by
    intro p hp h0
    have := hdim p hp
    rw [h0] at this
    simp at this
    omega
  obtain ⟨out, hout, hlen, hidx, _, _⟩ :=
    assign_clusters_spec Real.sqrt data data clusters data.length hn (le_refl _)
      (by omega) hpne
  have hsingle : ∀ (i : Nat) (h : i < data.length), out[i]? = some [data[i]] := by
    intro i hi
    rw [hidx i hi]
    have := filter_index_singleton (closest_index Real.sqrt data data.length) data 0
      (fun j hj => by rw [closest_index_self data d hdim hnodup j hj, zero_add]) i hi
    rw [zero_add] at this
    rw [this]
    rfl
  obtain ⟨new, hnew, hnlen, hcoord⟩ :=
    calculate_centroids_coordinates stale out data.length d hd
      (fun j hj => ⟨[data[j]], hsingle j hj, by simp, by
        intro v hv
        rw [List.mem_singleton] at hv
        rw [hv]
        exact hdim _ (List.getElem_mem hj)⟩)
  refine ⟨out, new, hout, by omega, ?_, hnew, hnlen, ?_⟩
  · intro i p hp
    obtain ⟨hi, rfl⟩ := List.getElem?_eq_some_iff.mp hp
    exact hsingle i hi
  · intro i p c hp hc
    obtain ⟨hi, rfl⟩ := List.getElem?_eq_some_iff.mp hp
    obtain ⟨hclen, hget⟩ := hcoord i [data[i]] c hi (hsingle i hi) hc
    refine ⟨hclen, ?_⟩
    intro t ht
    rw [hget t (by omega)]
    have : t ≠ d - 1 := by omega
    simp [this]

/-- C12 as amended, on the points `(0,1)` and `(4,5)`. -/
theorem assign_singletons_witness :
    ∃ out new, assign_clusters Real.sqrt [[0, 1], [4, 5]] [[0, 1], [4, 5]] [[], []]
        ([[0, 1], [4, 5]] : List (List ℝ)).length = some out ∧
      out.length = ([[0, 1], [4, 5]] : List (List ℝ)).length ∧
      (∀ (i : Nat) (p : List ℝ), ([[0, 1], [4, 5]] : List (List ℝ))[i]? = some p →
        out[i]? = some [p]) ∧
      calculate_centroids (fun _ => 7) out ([[0, 1], [4, 5]] : List (List ℝ)).length
        = some new ∧
      new.length = ([[0, 1], [4, 5]] : List (List ℝ)).length ∧
      ∀ (i : Nat) (p c : List ℝ), ([[0, 1], [4, 5]] : List (List ℝ))[i]? = some p →
        new[i]? = some c →
        c.length = 2 ∧ ∀ t, t + 1 < 2 → c.getD t 0 = p.getD t 0 :=
  assign_singletons (fun _ => 7) [[0, 1], [4, 5]] [[], []] 2 (by simp) (by decide)
    (by simp) (by simp) rfl

/-- C13 (scenario 4, a large epsilon).  Let `max_iterations ≥ 1`, let the first
pass from the initial centroids succeed with the candidate set `C1`, and let
`epsilon` be at least the displacement of every centroid in that pass.  Then
the loop of `fit` runs exactly one pass and returns `C1`, whatever
`max_iterations` is. -/
theorem fit_one_pass_of_large_epsilon (sqrt : F → F) (stale : Nat → Nat → F)
    (initial_centroids data : List (List F)) (k : Nat) (max_iterations : Int) (epsilon : F)
    (C1 : List (List F)) (hmax : 1 ≤ max_iterations)
    (hstep : step sqrt (stale 0) data k initial_centroids = some C1)
    (heps : ∀ (i : Nat) (o n : List F), initial_centroids[i]? = some o → C1[i]? = some n →
      euclidean_distance sqrt o n ≤ epsilon) :
    fit sqrt stale initial_centroids data k max_iterations epsilon = some C1 ∧
      (fit_run sqrt stale initial_centroids data k max_iterations epsilon).map FitState.passes
        = some 1 := by
  have hconv := centroids_converged_of_forall sqrt epsilon initial_centroids C1 heps
  have h1 : step_iterate sqrt stale data k initial_centroids 1 = some C1 := by
    simp only [step_iterate, hstep]
  obtain ⟨cl2, h⟩ := fit_loop_stop sqrt stale data k epsilon initial_centroids
    max_iterations.toNat 0 initial_centroids (List.replicate k []) (by simp) rfl 1
    initial_centroids C1 (by omega) (by omega) rfl h1
    (fun m A B h1 h2 _ _ => by omega)
    (Or.inl hconv)
  unfold fit fit_run
  rw [h]
  exact ⟨rfl, rfl⟩

/-- C13 on the points `0, 2`, one centroid starting at `0`, `epsilon = 100` and
a budget of `50` passes. -/
theorem fit_one_pass_of_large_epsilon_witness :
    fit Real.sqrt (fun _ _ => 0) [[0]] [[0], [2]] 1 50 100 = some [[1]] ∧
      (fit_run Real.sqrt (fun _ _ => 0) [[0]] [[0], [2]] 1 50 100).map FitState.passes
        = some 1 :=
  fit_one_pass_of_large_epsilon Real.sqrt (fun _ _ => 0) [[0]] [[0], [2]] 1 50 100 [[1]]
    (by norm_num) step_example_one
    (by
      intro i o n ho hn
      cases i with
      | zero =>
        simp only [List.getElem?_cons_zero, Option.some.injEq] at ho hn
        subst ho hn
        norm_num [euclidean_distance_one]
      | succ i => simp at ho)

/-- C14 at a failing input (the single point `(1,2)`, `k = 1`, initial centroid
`(0,0)`, `epsilon = 0`, three passes allowed, the unwritten nodes holding
`1`): the engine returns `(1,3)` and not the point `(1,2)`. -/
theorem fit_single_point_with_stale :
    fit Real.sqrt (fun _ _ => 1) [[0, 0]] [[1, 2]] 1 3 0 = some [[1, 3]] ∧
      step Real.sqrt (fun _ => 1) [[1, 2]] 1 [[0, 0]] = some [[1, 3]] ∧
      ([[1, 3]] : List (List ℝ)) ≠ [[1, 2]] := by
  have hs : ∀ c : List ℝ, step Real.sqrt (fun _ => 1) [[1, 2]] 1 [c] = some [[1, 3]] := by
    intro c
    simp only [step, List.replicate, assign_clusters_single_point Real.sqrt [1, 2] c []
      (by simp)]
    norm_num [calculate_centroids, calculate_centroids_loop, calculate_centroids_one,
      calculate_centroids_sum, init_empty_cord, get_cord_length, divide_cord_values_by_number,
      add_one_cord_values_to_another_cord]
  have h1 : step_iterate Real.sqrt (fun _ _ => 1) [[1, 2]] 1 [[0, 0]] 1 = some [[1, 3]] := by
    simp only [step_iterate, hs]
  have h2 : step_iterate Real.sqrt (fun _ _ => 1) [[1, 2]] 1 [[0, 0]] 2 = some [[1, 3]] := by
    simp only [step_iterate, hs]
  have hnc : centroids_converged Real.sqrt [[0, 0]] [[1, 3]] 0 = false := by
    have h : euclidean_distance Real.sqrt [0, 0] [1, 3] > 0 := by
      rw [euclidean_distance_gt_iff _ _ _ (le_refl 0)]
      norm_num [euclidean_distance_sum]
    simp only [centroids_converged, h, if_true]
  obtain ⟨cl2, h⟩ := fit_loop_stop Real.sqrt (fun _ _ => 1) [[1, 2]] 1 0 [[0, 0]]
    (3 : Int).toNat 0 [[0, 0]] (List.replicate 1 []) (by simp) rfl 2 [[1, 3]] [[1, 3]]
    (by norm_num) (by norm_num) h1 h2
    (fun m A B h1' h2' hA hB => by
      have hm : m = 1 := by omega
      subst hm
      rw [h1] at hB
      simp only [step_iterate, Nat.sub_self, Option.some.injEq] at hA hB
      subst hA hB
      exact hnc)
    (Or.inl (centroids_converged_self 0 (le_refl 0) _))
  refine ⟨?_, hs _, by norm_num⟩
  unfold fit fit_run
  rw [h]; rfl

/-- C15 (no stale cluster state).  Two cluster arrays of the same size that
differ only in the content of their first `k` slots give the same result
(the same array, or the same failure), and after a successful call every
member of the first `k` slots is a point of the dataset that the call itself
put there: slot `j` holds exactly the points whose closest index is `j`. -/
theorem assign_clusters_ignores_prior (sqrt : F → F) (data centroids : List (List F))
    (clusters1 clusters2 : List (List (List F))) (k : Nat)
    (hlen : clusters1.length = clusters2.length)
    (htail : clusters1.drop k = clusters2.drop k) :
    assign_clusters sqrt data centroids clusters1 k
        = assign_clusters sqrt data centroids clusters2 k ∧
      ∀ out, assign_clusters sqrt data centroids clusters1 k = some out →
        ∀ j members, j < k → out[j]? = some members →
          members = (data.filter
            (fun p => decide (closest_index sqrt centroids k p = some j))).reverse ∧
          ∀ p ∈ members, p ∈ data := by
  constructor
  · unfold assign_clusters
    by_cases hk : k ≤ clusters1.length
    · rw [assign_clusters_reset_eq clusters1 k hk,
        assign_clusters_reset_eq clusters2 k (by omega), htail]
    · rw [assign_clusters_reset_none clusters1 k (by omega),
        assign_clusters_reset_none clusters2 k (by omega)]
  · intro out hout j members hj hm
    obtain ⟨_, hidx⟩ := assign_clusters_some_spec sqrt data centroids clusters1 out k hout
    rw [hidx j hj] at hm
    simp only [Option.some.injEq] at hm
    subst hm
    refine ⟨rfl, ?_⟩
    intro p hp
    rw [List.mem_reverse] at hp
    exact (List.mem_filter.mp hp).1

/-- C15 on two arrays of two slots, one empty and one holding old members. -/
theorem assign_clusters_ignores_prior_witness :
    assign_clusters Real.sqrt [[0], [4]] [[0], [4]] [[], []] 2
        = assign_clusters Real.sqrt [[0], [4]] [[0], [4]] [[[7], [8]], [[9]]] 2 ∧
      ∀ out, assign_clusters Real.sqrt [[0], [4]] [[0], [4]] [[], []] 2 = some out →
        ∀ j members, j < 2 → out[j]? = some members →
          members = (([[0], [4]] : List (List ℝ)).filter
            (fun p => decide (closest_index Real.sqrt [[0], [4]] 2 p = some j))).reverse ∧
          ∀ p ∈ members, p ∈ ([[0], [4]] : List (List ℝ)) :=
  assign_clusters_ignores_prior Real.sqrt [[0], [4]] [[0], [4]] [[], []] [[[7], [8]], [[9]]] 2
    rfl rfl

/-- C16 (sentinel equivalence).  With `double` read as `ℝ`: for every point,
every `k ≥ 1` and every centroid chain, the index chosen by the scan of the
code (running minimum started at the sentinel `-1`) is the index chosen by the
reference scan (running minimum seeded with the distance to centroid `0`,
replaced only on strict less-than).  The sentinel branch fires at index `0`
and only there: from every running minimum other than `-1` the scan of the
code runs exactly as the scan without the sentinel test. -/
theorem closest_index_eq_reference (centroids : List (List ℝ)) (k : Nat) (p : List ℝ)
    (hk : 1 ≤ k) :
    closest_index Real.sqrt centroids k p = reference_closest_index Real.sqrt centroids k p ∧
      (∀ (fuel i : Nat) (cs : List (List ℝ)) (md : ℝ) (mi : Nat), md ≠ -1 →
        assign_clusters_scan Real.sqrt p fuel i cs md mi
          = reference_scan Real.sqrt p fuel i cs md mi) ∧
      (∀ (c0 : List ℝ) (rest : List (List ℝ)), centroids = c0 :: rest →
        closest_index Real.sqrt centroids k p
          = assign_clusters_scan Real.sqrt p (k - 1) 1 rest
              (euclidean_distance Real.sqrt p c0) 0 ∧
        euclidean_distance Real.sqrt p c0 ≠ -1) := by
  have hs : ∀ x, Real.sqrt x ≠ -1 := by
    intro x h
    have := Real.sqrt_nonneg x
    rw [h] at this
    linarith
  obtain ⟨n, rfl⟩ : ∃ n, k = n + 1 := ⟨k - 1, by omega⟩
  refine ⟨?_, assign_clusters_scan_eq_reference Real.sqrt hs p, ?_⟩
  · cases centroids with
    | nil => rfl
    | cons c0 rest =>
      simp only [closest_index, reference_closest_index, assign_clusters_scan, or_true,
        if_true, Nat.add_sub_cancel, zero_add]
      exact assign_clusters_scan_eq_reference Real.sqrt hs p n 1 rest _ 0 (hs _)
  · intro c0 rest hc
    subst hc
    refine ⟨?_, hs _⟩
    simp only [closest_index, assign_clusters_scan, or_true, if_true, Nat.add_sub_cancel,
      zero_add]

/-- C16 on the point `2` and the centroids `0, 4, 2`. -/
theorem closest_index_eq_reference_witness :
    closest_index Real.sqrt [[0], [4], [2]] 3 [2]
        = reference_closest_index Real.sqrt [[0], [4], [2]] 3 [2] ∧
      (∀ (fuel i : Nat) (cs : List (List ℝ)) (md : ℝ) (mi : Nat), md ≠ -1 →
        assign_clusters_scan Real.sqrt [2] fuel i cs md mi
          = reference_scan Real.sqrt [2] fuel i cs md mi) ∧
      (∀ (c0 : List ℝ) (rest : List (List ℝ)), ([[0], [4], [2]] : List (List ℝ)) = c0 :: rest →
        closest_index Real.sqrt [[0], [4], [2]] 3 [2]
          = assign_clusters_scan Real.sqrt [2] (3 - 1) 1 rest
              (euclidean_distance Real.sqrt [2] c0) 0 ∧
        euclidean_distance Real.sqrt [2] c0 ≠ -1) :=
  closest_index_eq_reference [[0], [4], [2]] 3 [2] (by decide)

/-- C17 fails as stated.  Points `0, 1`, one centroid `0`: the member chain of
cluster `0` is `1, 0`, the later point first. -/
theorem assign_clusters_not_dataset_order :
    assign_clusters Real.sqrt [[0], [1]] [[0]] [[]] 1 = some [[[1], [0]]] ∧
      ([[1], [0]] : List (List ℝ)) ≠ [[0], [1]] := by
  norm_num [assign_clusters, assign_clusters_reset, assign_clusters_loop, closest_index,
    assign_clusters_scan, euclidean_distance_one, copy_cords, List.range_succ]

/-- C17, as the code has it.  For every dataset of non-empty points, every
`k ≥ 1`, every centroid chain of at least `k` vectors and every array of at
least `k` slots, the member chain of cluster `j < k` after `assign_clusters`
holds the points assigned to `j` in reverse dataset order: each point is
linked in at the head, so the first member is the latest such point. -/
theorem assign_clusters_member_order (sqrt : F → F) (data centroids : List (List F))
    (clusters : List (List (List F))) (k : Nat) (hk : 1 ≤ k) (hc : k ≤ centroids.length)
    (hcl : k ≤ clusters.length) (hne : ∀ p ∈ data, p ≠ []) :
    ∃ out, assign_clusters sqrt data centroids clusters k = some out ∧
      ∀ j, j < k → out[j]? = some
        (data.filter (fun p => decide (closest_index sqrt centroids k p = some j))).reverse := by
  obtain ⟨out, hout, _, hidx, _, _⟩ :=
    assign_clusters_spec sqrt data centroids clusters k hk hc hcl hne
  exact ⟨out, hout, hidx⟩

/-- C17 as amended, on the points `0, 1` and one centroid `0`. -/
theorem assign_clusters_member_order_witness :
    ∃ out, assign_clusters Real.sqrt [[0], [1]] [[0]] [[]] 1 = some out ∧
      ∀ j, j < 1 → out[j]? = some
        (([[0], [1]] : List (List ℝ)).filter
          (fun p => decide (closest_index Real.sqrt [[0]] 1 p = some j))).reverse :=
  assign_clusters_member_order Real.sqrt [[0], [1]] [[0]] [[]] 1
    (by decide) (by decide) (by decide) (by simp)

/-- C18 (empty-cluster failure).  For an array of `k` clusters,
`calculate_centroids` fails (it reads the coordinates of the first member of
a cluster that has none) exactly when one of the `k` clusters is empty; when
none is empty it returns a set of `k` centroids. -/
theorem calculate_centroids_fails_iff_empty (stale : Nat → F)
    (clusters : List (List (List F))) (k : Nat) (hlen : clusters.length = k) :
    (calculate_centroids stale clusters k = none ↔
      ∃ j, j < k ∧ clusters[j]? = some []) ∧
    ((∀ cl ∈ clusters, cl ≠ []) →
      ∃ new, calculate_centroids stale clusters k = some new ∧ new.length = k) := by
  have hsome : (∀ j, j < k → clusters[j]? ≠ some []) →
      ∃ new, calculate_centroids stale clusters k = some new ∧ new.length = k := by
    intro h
    obtain ⟨new, hnew, hl, _⟩ := calculate_centroids_spec stale clusters k
      (fun j hj => by
        have hjl : j < clusters.length := by omega
        refine ⟨clusters[j], List.getElem?_eq_getElem hjl, ?_⟩
        intro h0
        exact h j hj (by rw [List.getElem?_eq_getElem hjl, h0]))
    exact ⟨new, hnew, hl⟩
  refine ⟨⟨?_, ?_⟩, ?_⟩
  · intro hnone
    by_contra hcon
    push_neg at hcon
    obtain ⟨new, hnew, _⟩ := hsome hcon
    rw [hnone] at hnew
    exact absurd hnew (by simp)
  · rintro ⟨j, hj, hempty⟩
    exact calculate_centroids_loop_none stale clusters k 0 [] ⟨j, by omega, by omega, hempty⟩
  · intro hall
    apply hsome
    intro j hj h0
    have hjl : j < clusters.length := by omega
    rw [List.getElem?_eq_getElem hjl] at h0
    simp only [Option.some.injEq] at h0
    exact hall _ (List.getElem_mem hjl) h0

/-- C18 on an array of two clusters, the second one empty. -/
theorem calculate_centroids_fails_iff_empty_witness :
    (calculate_centroids (fun _ => (0 : ℝ)) [[[1]], []] 2 = none ↔
      ∃ j, j < 2 ∧ ([[[1]], []] : List (List (List ℝ)))[j]? = some []) ∧
    ((∀ cl ∈ ([[[1]], []] : List (List (List ℝ))), cl ≠ []) →
      ∃ new, calculate_centroids (fun _ => (0 : ℝ)) [[[1]], []] 2 = some new ∧
        new.length = 2) :=
  calculate_centroids_fails_iff_empty (fun _ => (0 : ℝ)) [[[1]], []] 2 rfl

/-- C19 at a failing input (`length = 2`, the node allocated last holding `1`):
the chain has two nodes, the first is `0`, the last is `1` and not `0`; in
general the last node holds the unwritten value. -/
theorem init_empty_cord_last_not_zero :
    init_empty_cord (1 : ℝ) 2 = [0, 1] ∧
      (∀ (stale : ℝ) (n : Nat), 1 ≤ n →
        (init_empty_cord stale (n : Int)).length = n ∧
        (init_empty_cord stale (n : Int)).getD (n - 1) 0 = stale) := by
  refine ⟨by simp [init_empty_cord], ?_⟩
  intro stale n hn
  refine ⟨?_, ?_⟩
  · rw [init_empty_cord_length]; omega
  · rw [init_empty_cord_getD]; simp

/-! ## The run after a converged run, and the call of the Python method -/

/-- When the convergence test answers `true`, every pair of centroids at the
same position is within `epsilon`. -/
theorem centroids_converged_forall (sqrt : F → F) (epsilon : F) :
    ∀ (old new : List (List F)), centroids_converged sqrt old new epsilon = true →
      ∀ (i : Nat) (o n : List F), old[i]? = some o → new[i]? = some n →
        euclidean_distance sqrt o n ≤ epsilon
  | [], _, _, i, o, n, ho, _ => by simp at ho
  | _ :: _, [], _, i, o, n, _, hn => by simp at hn
  | o1 :: os, n1 :: ns, h, i, o, n, ho, hn => by
    rw [centroids_converged] at h
    by_cases hgt : euclidean_distance sqrt o1 n1 > epsilon
    · rw [if_pos hgt] at h
      exact absurd h (by simp)
    · rw [if_neg hgt] at h
      cases i with
      | zero =>
        simp only [List.getElem?_cons_zero, Option.some.injEq] at ho hn
        subst ho hn
        exact not_lt.mp hgt
      | succ i =>
        exact centroids_converged_forall sqrt epsilon os ns h i o n
          (by simpa using ho) (by simpa using hn)

/-- On `ℝ` two centroid sets of the same shape that pass the convergence test
with `epsilon = 0` are equal. -/
theorem eq_of_centroids_converged_zero (P R : List (List ℝ)) (d : Nat)
    (hlen : P.length = R.length) (hP : ∀ v ∈ P, v.length = d) (hR : ∀ v ∈ R, v.length = d)
    (h : centroids_converged Real.sqrt P R 0 = true) : P = R := by
  apply List.ext_getElem hlen
  intro i h1 h2
  have hle := centroids_converged_forall Real.sqrt 0 P R h i P[i] R[i]
    (List.getElem?_eq_getElem h1) (List.getElem?_eq_getElem h2)
  have hz : euclidean_distance Real.sqrt P[i] R[i] = 0 :=
    le_antisymm hle (Real.sqrt_nonneg _)
  exact eq_of_euclidean_distance_eq_zero _ _
    (by rw [hP _ (List.getElem_mem h1), hR _ (List.getElem_mem h2)]) hz

/-- A pass that succeeds from `k` centroids on points of `d` coordinates
returns `k` centroids of `d` coordinates. -/
theorem step_some_shape (sqrt : F → F) (stale : Nat → F) (data : List (List F)) (k d : Nat)
    (c c1 : List (List F)) (hk : 1 ≤ k) (hd : 1 ≤ d) (hdata : ∀ p ∈ data, p.length = d)
    (hc : c.length = k) (h : step sqrt stale data k c = some c1) :
    c1.length = k ∧ ∀ v ∈ c1, v.length = d := by
  obtain ⟨cl1, hassign, hlen1, hcalc⟩ := step_some sqrt stale data k c c1 h
  have hne : ∀ cl, assign_clusters sqrt data c (List.replicate k []) k = some cl →
      ∀ x ∈ cl, x ≠ [] := by
    intro cl hcl x hx h0
    rw [hassign] at hcl
    simp only [Option.some.injEq] at hcl
    subst hcl
    obtain ⟨j, hj, hjx⟩ := List.getElem_of_mem hx
    have hnone := calculate_centroids_loop_none stale cl1 k 0 []
      ⟨j, by omega, by omega, by rw [List.getElem?_eq_getElem hj, hjx, h0]⟩
    unfold calculate_centroids at hcalc
    rw [hnone] at hcalc
    exact absurd hcalc (by simp)
  obtain ⟨_, c2, _, _, _, hstep, h1, h2⟩ :=
    step_shape sqrt stale data k d c hk hd hdata hc hne
  rw [h] at hstep
  simp only [Option.some.injEq] at hstep
  subst hstep
  exact ⟨h1, h2⟩

/-- Every centroid set reached by successful passes from a well-shaped initial
set is well shaped. -/
theorem step_iterate_shape (sqrt : F → F) (stale : Nat → Nat → F) (data : List (List F))
    (k d : Nat) (init : List (List F)) (hk : 1 ≤ k) (hd : 1 ≤ d)
    (hdata : ∀ p ∈ data, p.length = d) (hinit : init.length = k)
    (hcdim : ∀ v ∈ init, v.length = d) :
    ∀ (m : Nat) (c : List (List F)), step_iterate sqrt stale data k init m = some c →
      c.length = k ∧ ∀ v ∈ c, v.length = d
  | 0, c, h => by
    simp only [step_iterate, Option.some.injEq] at h
    subst h
    exact ⟨hinit, hcdim⟩
  | m + 1, c, h => by
    obtain ⟨c0, hc0⟩ := step_iterate_some_of_le sqrt stale data k init (m + 1) m c (by omega) h
    rw [step_iterate_succ sqrt stale data k init c0 m hc0] at h
    obtain ⟨hl, _⟩ := step_iterate_shape sqrt stale data k d init hk hd hdata hinit hcdim m c0 hc0
    exact step_some_shape sqrt (stale m) data k d c0 c hk hd hdata hl h

/-- What the loop of `fit` returns is the centroid set reached after the
number of passes it ran; and when it stopped before its budget was used up,
its last candidate passed the convergence test. -/
theorem fit_loop_result (sqrt : F → F) (stale : Nat → Nat → F) (data : List (List F))
    (k : Nat) (epsilon : F) (init : List (List F)) :
    ∀ (fuel i : Nat) (c : List (List F)) (cl : List (List (List F))) (st : FitState F),
      cl.length = k → step_iterate sqrt stale data k init i = some c →
      fit_loop sqrt stale data k epsilon fuel i c cl = some st →
      step_iterate sqrt stale data k init st.passes = some st.centroids ∧
        i ≤ st.passes ∧ (1 ≤ fuel → i < st.passes) ∧
        (st.passes < i + fuel → ∃ P,
          step_iterate sqrt stale data k init (st.passes - 1) = some P ∧
          centroids_converged sqrt P st.centroids epsilon = true)
  | 0, i, c, cl, st, _, hc, h => by
    simp only [fit_loop, Option.some.injEq] at h
    subst h
    exact ⟨hc, le_refl _, by intro h; omega, by intro h; simp at h⟩
  | fuel + 1, i, c, cl, st, hcl, hc, h => by
    simp only [fit_loop] at h
    rw [assign_clusters_fresh sqrt data c cl k hcl] at h
    cases hassign : assign_clusters sqrt data c (List.replicate k []) k with
    | none =>
      rw [hassign] at h
      exact absurd h (by simp)
    | some cl1 =>
      rw [hassign] at h
      simp only at h
      cases hcalc : calculate_centroids (stale i) cl1 k with
      | none =>
        rw [hcalc] at h
        exact absurd h (by simp)
      | some c1 =>
        rw [hcalc] at h
        simp only at h
        have hlen1 : cl1.length = k := by
          rw [assign_clusters_length sqrt data c _ cl1 k hassign]
          simp
        have hc1 : step_iterate sqrt stale data k init (i + 1) = some c1 := by
          rw [step_iterate_succ sqrt stale data k init c i hc]
          simp only [step, hassign, hcalc]
        by_cases hcv : centroids_converged sqrt c c1 epsilon = true
        · rw [if_pos hcv] at h
          simp only [Option.some.injEq] at h
          subst h
          refine ⟨hc1, by simp, by intro _; simp, ?_⟩
          intro _
          exact ⟨c, by simpa using hc, hcv⟩
        · rw [if_neg hcv] at h
          obtain ⟨h1, h2, h3, h4⟩ :=
            fit_loop_result sqrt stale data k epsilon init fuel (i + 1) c1 cl1 st hlen1 hc1 h
          refine ⟨h1, by omega, by intro _; omega, ?_⟩
          intro hlt
          exact h4 (by omega)

/-- The cluster loop of `calculate_centroids` reads the unwritten values of the
clusters it visits only. -/
theorem calculate_centroids_loop_congr (s1 s2 : Nat → F) (clusters : List (List (List F))) :
    ∀ (fuel i : Nat) (acc : List (List F)),
      (∀ j, i ≤ j → j < i + fuel → s1 j = s2 j) →
      calculate_centroids_loop s1 clusters fuel i acc
        = calculate_centroids_loop s2 clusters fuel i acc
  | 0, _, _, _ => rfl
  | fuel + 1, i, acc, h => by
    simp only [calculate_centroids_loop, h i (le_refl i) (by omega)]
    cases clusters[i]? with
    | none => rfl
    | some cluster =>
      simp only
      cases calculate_centroids_one (s2 i) cluster with
      | none => rfl
      | some c =>
        exact calculate_centroids_loop_congr s1 s2 clusters fuel (i + 1) _
          (fun j h1 h2 => h j (by omega) (by omega))

/-- A pass depends on the unwritten values of the `k` clusters only. -/
theorem step_congr (sqrt : F → F) (s1 s2 : Nat → F) (data : List (List F)) (k : Nat)
    (c : List (List F)) (h : ∀ j, j < k → s1 j = s2 j) :
    step sqrt s1 data k c = step sqrt s2 data k c := by
  unfold step
  cases assign_clusters sqrt data c (List.replicate k []) k with
  | none => rfl
  | some cl =>
    exact calculate_centroids_loop_congr s1 s2 cl k 0 [] (fun j _ hj => h j (by omega))

/-- A run on the points `0, 2` from the centroid `0` with `epsilon = 0` and a
budget of five passes: it stops in its second pass with the centroid `1`. -/
theorem rerun_example_first_run :
    fit_run Real.sqrt (fun _ _ => 0) [[0]] [[0], [2]] 1 5 0
      = some ⟨[[1]], [[[2], [0]]], 2⟩ := by
  norm_num [fit_run, fit_loop, centroids_converged,
    calculate_centroids, calculate_centroids_loop, calculate_centroids_one,
    calculate_centroids_sum, init_empty_cord, get_cord_length, divide_cord_values_by_number,
    add_one_cord_values_to_another_cord, assign_clusters, assign_clusters_reset,
    assign_clusters_loop, closest_index, assign_clusters_scan, euclidean_distance_one,
    copy_cords, List.range_succ, List.replicate]

/-- Rows that all have an entry are converted unchanged. -/
theorem create_vectors_loop_eq {α : Type} (value : Nat → α) :
    ∀ (i : Nat) (rows : List (List α)), (∀ r ∈ rows, r ≠ []) →
      create_vectors_loop value i rows = rows
  | _, [], _ => rfl
  | i, row :: rest, h => by
    obtain ⟨x, xs, rfl⟩ := List.exists_cons_of_ne_nil (h row (by simp))
    simp only [create_vectors_loop, create_cords]
    rw [create_vectors_loop_eq value (i + 1) rest (fun r hr => h r (by simp [hr]))]

/-- A non-empty list whose rows all have an entry is converted unchanged. -/
theorem create_vectors_from_pyobject_eq {α : Type} (value : Nat → α) (cords : Option (List α))
    (rows : List (List α)) (hne : rows ≠ []) (hrows : ∀ r ∈ rows, r ≠ []) :
    create_vectors_from_pyobject value cords rows = some rows := by
  obtain ⟨row, rest, rfl⟩ := List.exists_cons_of_ne_nil hne
  simp only [create_vectors_from_pyobject]
  rw [create_vectors_loop_eq value 0 (row :: rest) hrows]

/-- A non-empty list is always converted. -/
theorem create_vectors_from_pyobject_some {α : Type} (value : Nat → α)
    (cords : Option (List α)) (rows : List (List α)) (hne : rows ≠ []) :
    ∃ vectors, create_vectors_from_pyobject value cords rows = some vectors := by
  obtain ⟨row, rest, rfl⟩ := List.exists_cons_of_ne_nil hne
  exact ⟨_, rfl⟩

/-- Converting a chain back gives the list of its vectors. -/
theorem vector_to_pyobject_eq {α : Type} (head_vec : List (List α)) :
    vector_to_pyobject head_vec = head_vec := by
  simp [vector_to_pyobject]

/-- With a budget of at most `0` the loop of `fit` runs no pass and leaves the
centroid chain as it was. -/
theorem fit_run_zero_budget (sqrt : F → F) (stale : Nat → Nat → F)
    (initial_centroids data : List (List F)) (k : Nat) (max_iterations : Int) (epsilon : F)
    (hmax : max_iterations ≤ 0) :
    fit_run sqrt stale initial_centroids data k max_iterations epsilon
      = some ⟨initial_centroids, List.replicate k [], 0⟩ := by
  have h0 : max_iterations.toNat = 0 := by omega
  simp [fit_run, h0, fit_loop]

/-! ## The claims on the second run and on the call -/

/-- C10, as the code has it.  With `double` read as `ℝ`: let the input be valid
(`k ≥ 1` initial centroids, every point and centroid of `d ≥ 1` coordinates,
`max_iterations ≥ 1`) and let `epsilon = 0`.  If the loop of `fit` returns `R`
from a run that stopped through the convergence test (its last candidate
passed `centroids_converged`, which is the case whenever it ran fewer than
`max_iterations` passes), then `R` is a fixed point of assignment followed by
aggregation, and the loop started again from `R` on the same data, with any
`epsilon ≥ 0` and any budget of at least one pass, passes
`centroids_converged` in its first pass, runs exactly one pass and returns
`R`.  The first pass of the second run is taken to meet, in the nodes that
`init_empty_cord` leaves unwritten, the values that the last pass of the first
run met. -/
theorem fit_rerun_after_convergence (stale1 stale2 : Nat → Nat → ℝ)
    (initial_centroids data : List (List ℝ)) (k d : Nat) (max_iterations max_iterations2 : Int)
    (epsilon2 : ℝ) (st : FitState ℝ)
    (hk : 1 ≤ k) (hd : 1 ≤ d) (hinit : initial_centroids.length = k)
    (hdata : ∀ p ∈ data, p.length = d) (hcdim : ∀ v ∈ initial_centroids, v.length = d)
    (hmax : 1 ≤ max_iterations) (hmax2 : 1 ≤ max_iterations2) (heps2 : 0 ≤ epsilon2)
    (hrun : fit_run Real.sqrt stale1 initial_centroids data k max_iterations 0 = some st)
    (hstop : (st.passes : Int) < max_iterations ∨
      ∃ P, step_iterate Real.sqrt stale1 data k initial_centroids (st.passes - 1) = some P ∧
        centroids_converged Real.sqrt P st.centroids 0 = true)
    (hstale : ∀ j, j < k → stale2 0 j = stale1 (st.passes - 1) j) :
    step Real.sqrt (stale2 0) data k st.centroids = some st.centroids ∧
      centroids_converged Real.sqrt st.centroids st.centroids epsilon2 = true ∧
      fit Real.sqrt stale2 st.centroids data k max_iterations2 epsilon2 = some st.centroids ∧
      (fit_run Real.sqrt stale2 st.centroids data k max_iterations2 epsilon2).map
        FitState.passes = some 1 := by
  obtain ⟨hR, _, hpos, hlt⟩ := fit_loop_result Real.sqrt stale1 data k 0 initial_centroids
    max_iterations.toNat 0 initial_centroids (List.replicate k []) st (by simp) rfl hrun
  have hn : 1 ≤ st.passes := hpos (by omega)
  obtain ⟨P, hP, hconv⟩ : ∃ P,
      step_iterate Real.sqrt stale1 data k initial_centroids (st.passes - 1) = some P ∧
        centroids_converged Real.sqrt P st.centroids 0 = true := by
    rcases hstop with h | h
    · exact hlt (by omega)
    · exact h
  obtain ⟨hPlen, hPdim⟩ := step_iterate_shape Real.sqrt stale1 data k d initial_centroids
    hk hd hdata hinit hcdim (st.passes - 1) P hP
  obtain ⟨hRlen, hRdim⟩ := step_iterate_shape Real.sqrt stale1 data k d initial_centroids
    hk hd hdata hinit hcdim st.passes st.centroids hR
  have hPR : P = st.centroids :=
    eq_of_centroids_converged_zero P st.centroids d (by omega) hPdim hRdim hconv
  have hfix1 : step Real.sqrt (stale1 (st.passes - 1)) data k st.centroids
      = some st.centroids := by
    have hsucc := step_iterate_succ Real.sqrt stale1 data k initial_centroids P
      (st.passes - 1) hP
    have hidx : st.passes - 1 + 1 = st.passes := by omega
    rw [hidx, hR, hPR] at hsucc
    exact hsucc.symm
  have hfix : step Real.sqrt (stale2 0) data k st.centroids = some st.centroids := by
    rw [step_congr Real.sqrt (stale2 0) (stale1 (st.passes - 1)) data k st.centroids hstale]
    exact hfix1
  have hself := centroids_converged_self epsilon2 heps2 st.centroids
  have h1 : step_iterate Real.sqrt stale2 data k st.centroids 1 = some st.centroids := by
    simp only [step_iterate, hfix]
  obtain ⟨cl2, h⟩ := fit_loop_stop Real.sqrt stale2 data k epsilon2 st.centroids
    max_iterations2.toNat 0 st.centroids (List.replicate k []) (by simp) rfl 1
    st.centroids st.centroids (by omega) (by omega) rfl h1
    (fun m A B h1 h2 _ _ => by omega) (Or.inl hself)
  refine ⟨hfix, hself, ?_, ?_⟩
  · unfold fit fit_run
    rw [h]; rfl
  · unfold fit_run
    rw [h]; rfl

/-- C10 as amended, on the points `0, 2`: the first run stops in its second
pass of five with the centroid `1`, and a second run from there stops in its
first pass. -/
theorem fit_rerun_after_convergence_witness :
    step Real.sqrt (fun _ => 0) [[0], [2]] 1 [[1]] = some [[1]] ∧
      centroids_converged Real.sqrt [[1]] [[1]] 0 = true ∧
      fit Real.sqrt (fun _ _ => 0) [[1]] [[0], [2]] 1 7 0 = some [[1]] ∧
      (fit_run Real.sqrt (fun _ _ => 0) [[1]] [[0], [2]] 1 7 0).map FitState.passes
        = some 1 :=
  fit_rerun_after_convergence (fun _ _ => 0) (fun _ _ => 0) [[0]] [[0], [2]] 1 1 5 7 0
    ⟨[[1]], [[[2], [0]]], 2⟩ (le_refl 1) (le_refl 1) rfl (by simp) (by simp)
    (by norm_num) (by norm_num) (le_refl 0) rerun_example_first_run
    (Or.inl (by norm_num)) (fun _ _ => rfl)

/-- C20 fails as stated.  With `max_iterations = 0`: for `k = -1` the cluster
array cannot be allocated and the call raises `MemoryError`; an empty initial
list comes back as a list holding one empty vector (the heap holding NULL in
the unwritten `cords` field); an initial centroid without coordinates comes
back with one coordinate, the unwritten value `7`; and an empty dataset whose
unwritten `cords` field cannot be walked is undefined behaviour. -/
theorem fit_call_zero_budget_fails :
    fit_call Real.sqrt ⟨fun _ _ => 0, fun _ => 0, fun _ => 0, some [], some []⟩
        [[1]] [[2]] (-1) 0 0 = FitResult.memory_error ∧
      fit_call Real.sqrt ⟨fun _ _ => 0, fun _ => 0, fun _ => 0, some [], some []⟩
        [] [[2]] 1 0 0 = FitResult.result [[]] ∧
      fit_call Real.sqrt ⟨fun _ _ => 0, fun _ => 0, fun _ => 7, some [], some []⟩
        [[]] [[2]] 1 0 0 = FitResult.result [[7]] ∧
      fit_call Real.sqrt ⟨fun _ _ => 0, fun _ => 0, fun _ => 0, none, some []⟩
        [[1]] [] 1 0 0 = FitResult.undefined := by
  refine ⟨?_, ?_, ?_, ?_⟩
  · simp [fit_call, create_vectors_from_pyobject, create_vectors_loop, create_cords]
  · simp [fit_call, create_vectors_from_pyobject, create_vectors_loop, create_cords,
      fit_run, fit_loop, vector_to_pyobject]
  · simp [fit_call, create_vectors_from_pyobject, create_vectors_loop, create_cords,
      fit_run, fit_loop, vector_to_pyobject]
  · simp [fit_call, create_vectors_from_pyobject]

/-- C20, as the code has it.  For every non-empty dataset, every non-empty
initial centroid list whose vectors all have at least one coordinate, every
`k ≥ 0` and every `epsilon`: when `max_iterations ≤ 0` the loop of `fit` runs
no pass and the call hands back the initial centroid list unchanged. -/
theorem fit_call_zero_budget (sqrt : F → F) (heap : Heap F)
    (initial_centroids_py data_py : List (List F)) (k max_iterations : Int) (epsilon : F)
    (hmax : max_iterations ≤ 0) (hk : 0 ≤ k) (hdata : data_py ≠ [])
    (hinit : initial_centroids_py ≠ []) (hrows : ∀ r ∈ initial_centroids_py, r ≠ []) :
    fit_call sqrt heap initial_centroids_py data_py k max_iterations epsilon
        = FitResult.result initial_centroids_py ∧
      ∀ (data : List (List F)),
        (fit_run sqrt heap.accumulator initial_centroids_py data k.toNat max_iterations
          epsilon).map FitState.passes = some 0 := by
  obtain ⟨data, hd⟩ :=
    create_vectors_from_pyobject_some heap.data_value heap.data_cords data_py hdata
  have hc := create_vectors_from_pyobject_eq heap.centroid_value heap.centroid_cords
    initial_centroids_py hinit hrows
  constructor
  · simp only [fit_call, hd, hc, if_neg (not_lt.mpr hk),
      fit_run_zero_budget sqrt heap.accumulator initial_centroids_py data k.toNat
        max_iterations epsilon hmax, vector_to_pyobject_eq]
  · intro data2
    rw [fit_run_zero_budget sqrt heap.accumulator initial_centroids_py data2 k.toNat
      max_iterations epsilon hmax]
    rfl

/-- C20 as amended, on two centroids, a budget of `-3` passes and `k = 2`. -/
theorem fit_call_zero_budget_witness :
    fit_call Real.sqrt ⟨fun _ _ => 1, fun _ => 1, fun _ => 1, none, none⟩
        [[5], [7]] [[0], [2]] 2 (-3) 0 = FitResult.result [[5], [7]] ∧
      ∀ (data : List (List ℝ)),
        (fit_run Real.sqrt
          (Heap.accumulator ⟨fun _ _ => 1, fun _ => 1, fun _ => 1, none, none⟩)
          [[5], [7]] data (2 : Int).toNat (-3) 0).map FitState.passes = some 0 :=
  fit_call_zero_budget Real.sqrt ⟨fun _ _ => 1, fun _ => 1, fun _ => 1, none, none⟩
    [[5], [7]] [[0], [2]] 2 (-3) 0 (by norm_num) (by norm_num) (by simp) (by simp) (by simp)

end KMeans
